import Mathlib

/-!
# CPPurses / TermOx: event dispatcher hit-testing and banner animators

A shallow embedding of

* `src/src/system_module/ncurses_event_dispatcher.cpp`
  (`find_object`, `parse_mouse_event`, `post_user_input`),
* `src/include/termox/widget/widgets/banner.hpp`
  (the `ox::animator` state machines), and
* `src/include/cppurses/widget/widgets/text_display.hpp`
  (the line table of `Text_display`; the body of `update_display` is not among the
  sources and is modelled from the specification),

followed by theorems about them.

Conventions.

* An `Object*` is modelled by the path of child positions that leads from the
  head object to the pointee (`[]` is the head itself), so pointer equality is
  path equality and the depth of a pointee is the length of its path.
* `std::size_t` values are `Nat` with arithmetic reduced modulo `2 ^ 64`;
  `unsigned` values are `Nat` reduced modulo `2 ^ 32`; `int` values are `Int`.
  The theorems that read display positions or the `int` counter of `Unscramble`
  bound the text length by `INT_MAX`, the range in which no signed overflow
  occurs; the increment of that counter is reduced to 32 bits, so that the
  states reached by unboundedly many ticks are those of the compiled code.
* `std::shuffle` is a parameter: a function on position lists that returns a
  permutation of its argument.
* A signal emission is recorded in the `emitted_` log of the animator next to
  the effect of the slot that `Animator_base` connects to it.
-/

namespace mcurses

/-! ## Object tree -/

/-- Modelled from the spec: the classes `Object` and `Widget` are declared outside
the surveyed sources. A node carries what the dispatcher reads from it: whether
its dynamic type is a `Widget` (the outcome of `dynamic_cast<Widget*>`), its
absolute origin (`global_x()`, `global_y()`), its extent, its enabled flag and its
ordered children. -/
inductive Object where
  | mk (is_widget : Bool) (global_x global_y width height : Nat) (enabled : Bool)
      (children : List Object)

namespace Object

/-- Whether `dynamic_cast<Widget*>` succeeds on the node. -/
def is_widget : Object → Bool
  | mk w _ _ _ _ _ _ => w

/-- Accessor `Widget::global_x()`. -/
def global_x : Object → Nat
  | mk _ gx _ _ _ _ _ => gx

/-- Accessor `Widget::global_y()`. -/
def global_y : Object → Nat
  | mk _ _ gy _ _ _ _ => gy

/-- Extent of the node along x. -/
def width : Object → Nat
  | mk _ _ _ w _ _ _ => w

/-- Extent of the node along y. -/
def height : Object → Nat
  | mk _ _ _ _ h _ _ => h

/-- Accessor `Object::is_enabled()`. -/
def is_enabled : Object → Bool
  | mk _ _ _ _ _ e _ => e

/-- Accessor `Object::children()`, in declared order. -/
def children : Object → List Object
  | mk _ _ _ _ _ _ cs => cs

/-- Modelled from the spec: `Object::has_coordinates` is declared outside the
surveyed sources; by the spec a widget is hit when its absolute rectangle
(origin, width, height) contains the point. -/
def has_coordinates (o : Object) (x y : Nat) : Bool :=
  decide (o.global_x ≤ x ∧ x < o.global_x + o.width ∧
    o.global_y ≤ y ∧ y < o.global_y + o.height)

/-- Dereference of a pointer: the node reached from `o` along the path `p`. -/
def deref : Object → List Nat → Option Object
  | o, [] => some o
  | o, i :: p =>
    match o.children[i]? with
    | none => none
    | some c => deref c p

end Object

/-- The test of the `for` loop of `find_object` on one child:
`child->has_coordinates(x,y) && child->is_enabled()`. -/
def hit (x y : Nat) (child : Object) : Bool :=
  child.has_coordinates x y && child.is_enabled

mutual
/-- The `while (keep_going && !obj->children().empty())` loop of `find_object`,
entered with current object `obj`; the result is the path from `obj` to the
object held in `obj` when the loop exits. An empty child list and a scan
without a match (`keep_going == false`) both leave the current object. -/
def find_object_while : Object → Nat → Nat → List Nat
  | .mk _ _ _ _ _ _ cs, x, y => find_object_for cs x y 0
/-- The `for (Object* child : obj->children())` loop of `find_object` over the
children not yet visited, `i` being the position of the first of them: the
first child passing the test becomes the current object (`break`, with
`keep_going == true`) and the `while` loop goes on from it. -/
def find_object_for : List Object → Nat → Nat → Nat → List Nat
  | [], _, _, _ => []
  | child :: rest, x, y, i =>
    if hit x y child then i :: find_object_while child x y
    else find_object_for rest x y (i + 1)
end

/-- The function `NCurses_event_dispatcher::find_object(x, y)`, `head` being
`System::head()` (`none` for `nullptr`). -/
def find_object (head : Option Object) (x y : Nat) : Option (List Nat) :=
  match head with
  | none => none
  | some obj =>
    if !obj.has_coordinates x y then none
    else some (find_object_while obj x y)

/-- The greedy chain of `find_object`: `Chain x y o p w` says that `p` leads from
`o` to `w`, every step takes the first child that is enabled and contains the
point, and no child of `w` is enabled and contains the point. -/
inductive Chain (x y : Nat) : Object → List Nat → Object → Prop where
  | stop (o : Object) (h : ∀ c ∈ o.children, hit x y c = false) : Chain x y o [] o
  | step (o c w : Object) (i : Nat) (p : List Nat)
      (hc : o.children[i]? = some c)
      (hfirst : ∀ j c', j < i → o.children[j]? = some c' → hit x y c' = false)
      (hhit : hit x y c = true)
      (hrest : Chain x y c p w) : Chain x y o (i :: p) w

/-! ### Example trees -/

/-- A childless widget on the rectangle `[0,5) × [0,5)`. -/
def leaf (enabled : Bool) : Object := .mk true 0 0 5 5 enabled []

/-- A head whose first child is an enabled leaf and whose second child, which
overlaps the first, has an enabled child of its own. -/
def overlapping_tree : Object :=
  .mk true 0 0 5 5 true [leaf true, .mk true 0 0 5 5 true [leaf true]]

/-- A head whose only child is disabled and has an enabled child. -/
def disabled_branch_tree : Object :=
  .mk true 0 0 5 5 true [.mk true 0 0 5 5 false [leaf true]]

/-- A head whose first child is disabled, whose second child does not contain the
point `(0,0)` and whose third child is enabled and contains it. -/
def skipped_siblings_tree : Object :=
  .mk true 0 0 5 5 true [leaf false, .mk true 9 9 1 1 true [], leaf true]

/-- A head at origin `(0,0)` with one enabled child widget at origin `(2,2)`. -/
def press_tree : Object :=
  .mk true 0 0 80 24 true [.mk true 2 2 10 10 true []]

/-! ## Event dispatcher -/

/-- The constants of `<ncurses.h>` that the dispatcher uses. The header is not part
of the repository, so they are taken as parameters. -/
structure NCurses where
  KEY_MOUSE : Int
  KEY_RESIZE : Int
  BUTTON1_PRESSED : Nat
  BUTTON1_RELEASED : Nat
  BUTTON2_PRESSED : Nat
  BUTTON2_RELEASED : Nat
  BUTTON3_PRESSED : Nat
  BUTTON3_RELEASED : Nat
  BUTTON4_PRESSED : Nat
  BUTTON4_RELEASED : Nat
  BUTTON5_PRESSED : Nat
  BUTTON5_RELEASED : Nat

/-- The ten button masks in the order in which `parse_mouse_event` tests them. -/
def NCurses.button_masks (k : NCurses) : List Nat :=
  [k.BUTTON1_PRESSED, k.BUTTON1_RELEASED, k.BUTTON2_PRESSED, k.BUTTON2_RELEASED,
   k.BUTTON3_PRESSED, k.BUTTON3_RELEASED, k.BUTTON4_PRESSED, k.BUTTON4_RELEASED,
   k.BUTTON5_PRESSED, k.BUTTON5_RELEASED]

/-- The ten masks are single bits at ten different places: none is zero and no
two of them share a bit. -/
def NCurses.single_bits (k : NCurses) : Prop :=
  (∀ m ∈ k.button_masks, m ≠ 0) ∧ k.button_masks.Pairwise (fun a b => a &&& b = 0)

instance (k : NCurses) : Decidable k.single_bits := by
  unfold NCurses.single_bits
  exact inferInstance

/-- The values of ncurses 6 (`NCURSES_MOUSE_VERSION == 2`, five bits per button:
released `001`, pressed `002`, shifted by `5 * (button - 1)`; `KEY_MOUSE == 0631`,
`KEY_RESIZE == 0632`), used for concrete inputs. -/
def ncurses6 : NCurses where
  KEY_MOUSE := 409
  KEY_RESIZE := 410
  BUTTON1_PRESSED := 2
  BUTTON1_RELEASED := 1
  BUTTON2_PRESSED := 64
  BUTTON2_RELEASED := 32
  BUTTON3_PRESSED := 2048
  BUTTON3_RELEASED := 1024
  BUTTON4_PRESSED := 65536
  BUTTON4_RELEASED := 32768
  BUTTON5_PRESSED := 2097152
  BUTTON5_RELEASED := 1048576

/-- The struct `MEVENT` filled by `getmouse`: `short id; int x, y, z; mmask_t bstate`. -/
structure MEVENT where
  id : Int
  x : Int
  y : Int
  z : Int
  bstate : Nat
deriving DecidableEq

/-- The values of `Event::Type` that the dispatcher assigns. -/
inductive Event_type where
  | None
  | MouseButtonPress
  | MouseButtonRelease
deriving DecidableEq

/-- The values of `Mouse_event::Button`. -/
inductive Button where
  | NoButton
  | LeftButton
  | MidButton
  | RightButton
  | ScrollUp
  | ScrollDown
deriving DecidableEq

/-- An event object: a `Mouse_event` holding the seven constructor arguments in
the order of the call in `parse_mouse_event`, or a `Key_event` holding its key. -/
inductive Event where
  | Mouse_event (type : Event_type) (button : Button) (glob_x glob_y : Int)
      (local_x local_y : Nat) (device_id : Int)
  | Key_event (key : Int)
deriving DecidableEq

/-- Conversion of an `int` to `unsigned`. -/
def to_unsigned (v : Int) : Nat := (v % 4294967296).toNat

/-- The `if` / `else if` chain of `parse_mouse_event` (lines 67 to 122) on the
button state: the values left in `ev_type` and `ev_button`, or `none` when the
final `else` returns the null pair. -/
def parse_bstate (k : NCurses) (bstate : Nat) : Option (Event_type × Button) :=
  if bstate &&& k.BUTTON1_PRESSED ≠ 0 then
    some (Event_type.MouseButtonPress, Button.LeftButton)
  else if bstate &&& k.BUTTON1_RELEASED ≠ 0 then
    some (Event_type.MouseButtonRelease, Button.LeftButton)
  else if bstate &&& k.BUTTON2_PRESSED ≠ 0 then
    some (Event_type.MouseButtonPress, Button.MidButton)
  else if bstate &&& k.BUTTON2_RELEASED ≠ 0 then
    some (Event_type.MouseButtonRelease, Button.MidButton)
  else if bstate &&& k.BUTTON3_PRESSED ≠ 0 then
    some (Event_type.MouseButtonPress, Button.RightButton)
  else if bstate &&& k.BUTTON3_RELEASED ≠ 0 then
    some (Event_type.MouseButtonRelease, Button.RightButton)
  else if bstate &&& k.BUTTON4_PRESSED ≠ 0 then
    some (Event_type.MouseButtonPress, Button.ScrollDown)
  else if bstate &&& k.BUTTON4_RELEASED ≠ 0 then
    some (Event_type.MouseButtonRelease, Button.ScrollDown)
  else if bstate &&& k.BUTTON5_PRESSED ≠ 0 then
    some (Event_type.MouseButtonPress, Button.ScrollUp)
  else if bstate &&& k.BUTTON5_RELEASED ≠ 0 then
    some (Event_type.MouseButtonRelease, Button.ScrollUp)
  else none

/-- The cast `dynamic_cast<Widget*>(object)`: the pointee when the pointer is not
null and its pointee is a `Widget`. -/
def dynamic_cast_Widget (head : Option Object) (object : Option (List Nat)) : Option Object :=
  match head, object with
  | some root, some p =>
    match root.deref p with
    | some w => if w.is_widget then some w else none
    | none => none
  | _, _ => none

/-- The function `NCurses_event_dispatcher::parse_mouse_event()`; `getmouse` is
the event filled in by `::getmouse` when it returns `OK` and `none` otherwise.
The result is the pair (object, event), `none` standing for `nullptr`. -/
def parse_mouse_event (k : NCurses) (head : Option Object) (getmouse : Option MEVENT) :
    Option (List Nat) × Option Event :=
  match getmouse with
  | some mouse_event =>
    let object := find_object head (to_unsigned mouse_event.x) (to_unsigned mouse_event.y)
    match parse_bstate k mouse_event.bstate with
    | none => (none, none)
    | some (ev_type, ev_button) =>
      match dynamic_cast_Widget head object with
      | some widg =>
        let local_x := to_unsigned (mouse_event.x - widg.global_x)
        let local_y := to_unsigned (mouse_event.y - widg.global_y)
        (object, some (Event.Mouse_event ev_type ev_button mouse_event.x mouse_event.y
          local_x local_y mouse_event.id))
      | none => (none, none)
  | none => (none, none)

/-- The function `handle_keyboard_event()`: an empty `unique_ptr`. -/
def handle_keyboard_event : Option Event := none

/-- The function `handle_keyboard_object()`: `nullptr`. -/
def handle_keyboard_object : Option (List Nat) := none

/-- The function `handle_resize_event()`: an empty `unique_ptr`. -/
def handle_resize_event : Option Event := none

/-- The function `handle_resize_object()`: `nullptr`. -/
def handle_resize_object : Option (List Nat) := none

/-- A failure of a dispatch iteration. -/
inductive Fault where
  | null_dereference
  | bad_cast
deriving DecidableEq

/-- What one dispatch iteration does to `System`: the pairs handed to
`System::post_event`, in order, and whether `System::cycle_tab_focus` was called. -/
structure Effects where
  posted : List (List Nat × Event)
  cycle_tab_focus : Bool
deriving DecidableEq

/-- The final `if (object != nullptr && event != nullptr)` of `post_user_input`. -/
def post_if_both (object : Option (List Nat)) (event : Option Event) (cycled : Bool) : Effects :=
  match object, event with
  | some o, some e => { posted := [(o, e)], cycle_tab_focus := cycled }
  | _, _ => { posted := [], cycle_tab_focus := cycled }

/-- The function `NCurses_event_dispatcher::post_user_input()`; `input` is the value
returned by `::getch()` and `getmouse` the outcome of `::getmouse`. In the
`default` branch the key of the event is read through the pointer returned by
`handle_keyboard_event`; reading through a null pointer is a fault. -/
def post_user_input (k : NCurses) (head : Option Object) (input : Int)
    (getmouse : Option MEVENT) : Except Fault Effects :=
  if input = k.KEY_MOUSE then
    let obj_event_pair := parse_mouse_event k head getmouse
    .ok (post_if_both obj_event_pair.1 obj_event_pair.2 false)
  else if input = k.KEY_RESIZE then
    .ok (post_if_both handle_resize_object handle_resize_event false)
  else
    let event := handle_keyboard_event
    let object := handle_keyboard_object
    match event with
    | some (Event.Key_event key) => .ok (post_if_both object event (decide (key = 9)))
    | some _ => .error Fault.bad_cast
    | none => .error Fault.null_dereference

/-- The coordinates of the event are those of a screen cell: non-negative values
of type `int`. -/
def MEVENT.on_screen (m : MEVENT) : Prop :=
  0 ≤ m.x ∧ m.x < 2147483648 ∧ 0 ≤ m.y ∧ m.y < 2147483648

instance (m : MEVENT) : Decidable m.on_screen := by
  unfold MEVENT.on_screen
  exact inferInstance

/-- The conditions under which a mouse input names a widget and an event: the
read succeeded, the button state is recognised, and `find_object` at the
position of the event yields the object at path `p`, which is a `Widget`. -/
def mouse_input_resolves (k : NCurses) (head : Option Object) (getmouse : Option MEVENT)
    (p : List Nat) : Prop :=
  ∃ m w, getmouse = some m ∧ (parse_bstate k m.bstate).isSome = true ∧
    find_object head (to_unsigned m.x) (to_unsigned m.y) = some p ∧
    dynamic_cast_Widget head (some p) = some w

/-- The input "button 1 pressed" at `(5,5)` from device 0. -/
def press_at_5_5 : MEVENT := { id := 0, x := 5, y := 5, z := 0, bstate := 2 }

end mcurses

namespace ox

/-! ## Banner animators -/

/-- One more than the largest `std::size_t`. -/
abbrev SIZE_MOD : Nat := 18446744073709551616

/-- The largest `int`. -/
abbrev INT_MAX : Nat := 2147483647

/-- Conversion of an `int` to `std::size_t`. -/
def to_size_t (v : Int) : Nat := (v % 18446744073709551616).toNat

/-- The result of an `int` operation whose mathematical value is `v`, reduced to
32 bits in two's complement: `v` itself between `INT_MIN` and `INT_MAX`, and the
wrapped value that the compiled code holds after an overflow (`INT_MAX + 1`
gives `INT_MIN`). -/
def wrap_int (v : Int) : Int := (v + 2147483648) % 4294967296 - 2147483648

/-- The struct `Index_and_position`: `std::size_t index; int position`. -/
structure Index_and_position where
  index : Nat
  position : Int
deriving DecidableEq

/-- An `IP_range`: a pair of iterators into the table of the animator, each held
as its offset from `begin()` of the table. -/
structure IP_range where
  begin_ : Nat
  end_ : Nat
deriving DecidableEq

/-- The table entries that a range-based `for` over the range visits. -/
def IP_range.entries (r : IP_range) (data : List Index_and_position) :
    List Index_and_position :=
  (data.drop r.begin_).take (r.end_ - r.begin_)

/-- The result of `std::iota` from `{0, 0}` on a table of `n` entries: the
`operator++` of `Index_and_position` increments both members, so entry `i` is
`{i, i}`. The position is an `int`: the increments stay in range for
`n ≤ INT_MAX`. -/
def iota_table (n : Nat) : List Index_and_position :=
  (List.range n).map (fun i => { index := i, position := (i : Int) })

namespace animator

/-- The two signals of `Animator_base`. -/
inductive Signal where
  | start
  | stop
deriving DecidableEq

/-- The members of `Animator_base`, and the log of the signals emitted so far. -/
structure Animator_base where
  data_ : List Index_and_position
  max_length_ : Nat
  text_length_ : Nat
  started_ : Bool
  emitted_ : List Signal
deriving DecidableEq

namespace Animator_base

/-- Emission of `start`: the slot connected in the constructor sets `started_`. -/
def start (a : Animator_base) : Animator_base :=
  { a with started_ := true, emitted_ := a.emitted_ ++ [Signal.start] }

/-- Emission of `stop`: the slot connected in the constructor clears `started_`. -/
def stop (a : Animator_base) : Animator_base :=
  { a with started_ := false, emitted_ := a.emitted_ ++ [Signal.stop] }

/-- The function `Animator_base::set_text_length`. -/
def set_text_length (a : Animator_base) (x : Nat) : Animator_base :=
  { a with text_length_ := x }

/-- The function `Animator_base::set_max_length`. -/
def set_max_length (a : Animator_base) (x : Nat) : Animator_base :=
  { a with max_length_ := x }

/-- The function `Animator_base::initialize_data`: the table is resized to
`text_length()` and filled by `std::iota` from `{0, 0}`. -/
def initialize_data (a : Animator_base) : Animator_base :=
  { a with data_ := iota_table a.text_length_ }

/-- The accessor `is_started()`. -/
def is_started (a : Animator_base) : Bool := a.started_

end Animator_base

/-! ### Scan -/

/-- The class `Scan`. -/
structure Scan extends Animator_base where
  begin_ : Nat
  end_ : Nat
  hold_ : Nat
deriving DecidableEq

namespace Scan

/-- The function `Scan::operator()`: one tick; the new state and the returned range. -/
def operator_call (s : Scan) : Scan × IP_range :=
  let t_length := s.text_length_
  let hold_max := (t_length * 3) % SIZE_MOD
  let s1 : Scan :=
    if s.begin_ = 0 ∧ s.end_ ≠ t_length ∧ s.hold_ = 0 then
      { s with end_ := (s.end_ + 1) % SIZE_MOD }
    else if s.begin_ = 0 ∧ s.end_ = t_length ∧ s.hold_ ≠ hold_max then
      { s with hold_ := (s.hold_ + 1) % SIZE_MOD }
    else if s.begin_ ≠ t_length ∧ s.end_ = t_length ∧ s.hold_ = hold_max then
      { s with begin_ := (s.begin_ + 1) % SIZE_MOD }
    else
      { s with toAnimator_base := s.toAnimator_base.stop }
  (s1, { begin_ := s1.begin_, end_ := s1.end_ })

/-- The function `Scan::set_text_length`. -/
def set_text_length (s : Scan) (x : Nat) : Scan :=
  let s1 : Scan := { s with toAnimator_base := s.toAnimator_base.set_text_length x }
  if s1.text_length_ = 0 then s1
  else
    { toAnimator_base := s1.toAnimator_base.initialize_data.start,
      begin_ := 0, end_ := 0, hold_ := 0 }

/-- The state after `k` ticks. -/
def ticks : Nat → Scan → Scan
  | 0, s => s
  | k + 1, s => (ticks k s).operator_call.1

/-- The range returned by tick number `k`, for `k ≥ 1`, counted from state `s`. -/
def range_of_tick (k : Nat) (s : Scan) : IP_range := (ticks (k - 1) s).operator_call.2

end Scan

/-! ### Unscramble -/

/-- The class `Unscramble`. -/
structure Unscramble extends Animator_base where
  sorted_to_ : Int
deriving DecidableEq

namespace Unscramble

/-- The `for` loop of `Unscramble::operator()` up to its `break`, over the entries
from position `i` on: the position `i` at which `x.position == sorted_to_` first
holds, or `none` when the loop runs to the end of the table. -/
def find_position (sorted_to : Int) : List Index_and_position → Nat → Option Nat
  | [], _ => none
  | x :: rest, i =>
    if x.position = sorted_to then some i else find_position sorted_to rest (i + 1)

/-- The call `std::swap(data[i].position, data[j].position)`. -/
def swap_position (data : List Index_and_position) (i j : Nat) : List Index_and_position :=
  match data[i]?, data[j]? with
  | some a, some b =>
    (data.set i { a with position := b.position }).set j { b with position := a.position }
  | _, _ => data

/-- The whole `for` loop of `Unscramble::operator()`: `i` starts at
`sorted_to_` converted to `std::size_t`; the first entry from there on whose
position equals `sorted_to_` swaps positions with entry `sorted_to_`. -/
def for_loop (data : List Index_and_position) (sorted_to : Int) : List Index_and_position :=
  match find_position sorted_to (data.drop (to_size_t sorted_to)) (to_size_t sorted_to) with
  | some i => swap_position data i (to_size_t sorted_to)
  | none => data

/-- The function `Unscramble::operator()`: one tick; the new state and the returned
range. The counter `sorted_to_` is an `int`: `++sorted_to_` is its 32-bit
increment. -/
def operator_call (s : Unscramble) : Unscramble × IP_range :=
  if to_size_t s.sorted_to_ = s.text_length_ then
    let s1 : Unscramble := { s with toAnimator_base := s.toAnimator_base.stop }
    (s1, { begin_ := 0, end_ := s1.data_.length })
  else
    let s1 : Unscramble :=
      { s with data_ := for_loop s.data_ s.sorted_to_,
               sorted_to_ := wrap_int (s.sorted_to_ + 1) }
    (s1, { begin_ := 0, end_ := s1.data_.length })

/-- The function `Unscramble::zip`. -/
def zip (x : List Nat) (y : List Int) : List Index_and_position :=
  List.zipWith Index_and_position.mk x y

/-- The function `Unscramble::initialize_data`; `shuffle` is the effect of the call
of `std::shuffle` on the positions `0, 1, ..., text_length - 1`. -/
def initialize_data (shuffle : List Int → List Int) (s : Unscramble) : Unscramble :=
  let indices := List.range s.text_length_
  let positions := (List.range s.text_length_).map Int.ofNat
  let positions := shuffle positions
  { s with data_ := zip indices positions }

/-- The function `Unscramble::set_text_length`. -/
def set_text_length (shuffle : List Int → List Int) (s : Unscramble) (x : Nat) : Unscramble :=
  let s1 : Unscramble := { s with toAnimator_base := s.toAnimator_base.set_text_length x }
  if s1.text_length_ = 0 then s1
  else
    let s2 := initialize_data shuffle s1
    { toAnimator_base := s2.toAnimator_base.start, sorted_to_ := 0 }

/-- The state after `k` ticks. -/
def ticks : Nat → Unscramble → Unscramble
  | 0, s => s
  | k + 1, s => (ticks k s).operator_call.1

/-- The positions of the table, in table order. -/
def positions (s : Unscramble) : List Int := s.data_.map Index_and_position.position

/-- The text indices of the table, in table order. -/
def indices (s : Unscramble) : List Nat := s.data_.map Index_and_position.index

/-- The state of an `Unscramble` for text length `T` in which the first `k`
slots are fixed: the text length is `T`, `sorted_to_` is `k`, the text indices
are `0, ..., T - 1` in order, the positions are a permutation of `0, ..., T - 1`,
and each of the first `k` positions equals its slot. -/
def fixed_up_to (T k : Nat) (s : Unscramble) : Prop :=
  s.text_length_ = T ∧ s.sorted_to_ = (k : Int) ∧ s.indices = List.range T ∧
  s.positions.Perm ((List.range T).map Int.ofNat) ∧
  ∀ i, i < k → s.positions[i]? = some (i : Int)

end Unscramble

/-! ### Persistent_scan -/

/-- The class `Persistent_scan`. -/
structure Persistent_scan extends Animator_base where
  end_ : Nat
deriving DecidableEq

namespace Persistent_scan

/-- The function `Persistent_scan::operator()`: one tick; the new state and the
returned range. In the second `return` the range is built from the value
of `end_` before the post-increment. -/
def operator_call (s : Persistent_scan) : Persistent_scan × IP_range :=
  if s.end_ = s.text_length_ then
    let s1 : Persistent_scan := { s with toAnimator_base := s.toAnimator_base.stop }
    (s1, { begin_ := 0, end_ := s1.data_.length })
  else
    ({ s with end_ := (s.end_ + 1) % SIZE_MOD }, { begin_ := 0, end_ := s.end_ })

/-- The function `Persistent_scan::set_text_length`. -/
def set_text_length (s : Persistent_scan) (x : Nat) : Persistent_scan :=
  let s1 : Persistent_scan := { s with toAnimator_base := s.toAnimator_base.set_text_length x }
  if s1.text_length_ = 0 then s1
  else { toAnimator_base := s1.toAnimator_base.initialize_data.start, end_ := 0 }

/-- The inherited function `Animator_base::set_max_length`. -/
def set_max_length (s : Persistent_scan) (x : Nat) : Persistent_scan :=
  { s with toAnimator_base := s.toAnimator_base.set_max_length x }

/-- Emission of the inherited signal `stop`. -/
def stop (s : Persistent_scan) : Persistent_scan :=
  { s with toAnimator_base := s.toAnimator_base.stop }

/-- The state after `k` ticks. -/
def ticks : Nat → Persistent_scan → Persistent_scan
  | 0, s => s
  | k + 1, s => (ticks k s).operator_call.1

/-- The range returned by tick number `k`, for `k ≥ 1`, counted from state `s`. -/
def range_of_tick (k : Nat) (s : Persistent_scan) : IP_range :=
  (ticks (k - 1) s).operator_call.2

/-- One operation on the animator: a call of `set_text_length`, a call of
`set_max_length`, or a tick. -/
def step (s t : Persistent_scan) : Prop :=
  (∃ x, t = s.set_text_length x) ∨ (∃ x, t = s.set_max_length x) ∨ t = s.operator_call.1

end Persistent_scan

/-! ### Random -/

/-- The class `Random`. -/
structure Random extends Animator_base where
  end_ : Nat
deriving DecidableEq

namespace Random

/-- The function `Random::operator()`: one tick; the new state and the returned
range. -/
def operator_call (s : Random) : Random × IP_range :=
  if s.end_ = s.text_length_ then
    let s1 : Random := { s with toAnimator_base := s.toAnimator_base.stop }
    (s1, { begin_ := 0, end_ := s1.data_.length })
  else
    ({ s with end_ := (s.end_ + 1) % SIZE_MOD }, { begin_ := 0, end_ := s.end_ })

/-- The function `Random::set_text_length`; `shuffle` is the effect of the call of
`std::shuffle` on the table. -/
def set_text_length (shuffle : List Index_and_position → List Index_and_position)
    (s : Random) (x : Nat) : Random :=
  let s1 : Random := { s with toAnimator_base := s.toAnimator_base.set_text_length x }
  if s1.text_length_ = 0 then s1
  else
    let s2 : Animator_base := s1.toAnimator_base.initialize_data
    let s3 : Animator_base := { s2 with data_ := shuffle s2.data_ }
    { toAnimator_base := s3.start, end_ := 0 }

/-- The inherited function `Animator_base::set_max_length`. -/
def set_max_length (s : Random) (x : Nat) : Random :=
  { s with toAnimator_base := s.toAnimator_base.set_max_length x }

/-- The state after `k` ticks. -/
def ticks : Nat → Random → Random
  | 0, s => s
  | k + 1, s => (ticks k s).operator_call.1

/-- The range returned by tick number `k`, for `k ≥ 1`, counted from state `s`. -/
def range_of_tick (k : Nat) (s : Random) : IP_range :=
  (ticks (k - 1) s).operator_call.2

/-- The same members, read as a `Persistent_scan`. -/
def as_Persistent_scan (s : Random) : Persistent_scan :=
  { toAnimator_base := s.toAnimator_base, end_ := s.end_ }

/-- One operation on the animator: a call of `set_text_length` with some outcome
of the shuffle, a call of `set_max_length`, or a tick. -/
def step (s t : Random) : Prop :=
  (∃ x shuffle, (∀ l, (shuffle l).Perm l) ∧ t = set_text_length shuffle s x) ∨
  (∃ x, t = s.set_max_length x) ∨ t = s.operator_call.1

end Random

/-! ### Scroll_base, Scroll and Conditional_scroll -/

/-- The class `Scroll_base`. -/
structure Scroll_base extends Animator_base where
  begin_ : Nat
  hold_ : Nat
  hold_length_ : Nat
deriving DecidableEq

/-- The lambda `[](auto& x) { --x.position; }`. -/
def decrement_position (x : Index_and_position) : Index_and_position :=
  { x with position := x.position - 1 }

/-- The call `std::for_each(begin() + b, end(), [](auto& x) { --x.position; })`. -/
def decrement_from (b : Nat) (data : List Index_and_position) : List Index_and_position :=
  data.take b ++ (data.drop b).map decrement_position

namespace Scroll_base

/-- The function `Scroll_base::operator()`: one tick; the new state and the returned
range. -/
def operator_call (s : Scroll_base) : Scroll_base × IP_range :=
  let s1 : Scroll_base :=
    if s.hold_ < s.hold_length_ then
      { s with hold_ := (s.hold_ + 1) % SIZE_MOD }
    else if s.begin_ = s.text_length_ then
      { toAnimator_base := s.toAnimator_base.initialize_data,
        begin_ := 0, hold_ := 0, hold_length_ := s.hold_length_ }
    else
      { s with begin_ := (s.begin_ + 1) % SIZE_MOD,
               data_ := decrement_from ((s.begin_ + 1) % SIZE_MOD) s.data_ }
  (s1, { begin_ := s1.begin_, end_ := s1.data_.length })

/-- The function `Scroll_base::reset_hold_length`. -/
def reset_hold_length (s : Scroll_base) : Scroll_base :=
  let s1 : Scroll_base := { s with hold_length_ := min (min s.max_length_ s.text_length_) 20 }
  { s1 with hold_length_ := max s1.hold_length_ 20 }

/-- The function `Scroll_base::set_text_length`. -/
def set_text_length (s : Scroll_base) (x : Nat) : Scroll_base :=
  let s1 : Scroll_base := { s with toAnimator_base := s.toAnimator_base.set_text_length x }
  let s2 : Scroll_base := s1.reset_hold_length
  { toAnimator_base := s2.toAnimator_base.initialize_data,
    begin_ := 0, hold_ := 0, hold_length_ := s2.hold_length_ }

/-- The function `Scroll_base::set_max_length`. -/
def set_max_length (s : Scroll_base) (x : Nat) : Scroll_base :=
  let s1 : Scroll_base := { s with toAnimator_base := s.toAnimator_base.set_max_length x }
  s1.reset_hold_length

/-- Emission of the inherited signal `start`. -/
def start (s : Scroll_base) : Scroll_base :=
  { s with toAnimator_base := s.toAnimator_base.start }

/-- Emission of the inherited signal `stop`. -/
def stop (s : Scroll_base) : Scroll_base :=
  { s with toAnimator_base := s.toAnimator_base.stop }

/-- The state after `k` ticks. -/
def ticks : Nat → Scroll_base → Scroll_base
  | 0, s => s
  | k + 1, s => (ticks k s).operator_call.1

/-- The range returned by tick number `k`, for `k ≥ 1`, counted from state `s`. -/
def range_of_tick (k : Nat) (s : Scroll_base) : IP_range :=
  (ticks (k - 1) s).operator_call.2

end Scroll_base

namespace Scroll

/-- The function `Scroll::set_text_length`; the class `Scroll` adds no member to
`Scroll_base`. -/
def set_text_length (s : Scroll_base) (x : Nat) : Scroll_base :=
  let s1 := Scroll_base.set_text_length s x
  if s1.text_length_ ≠ 0 then s1.start else s1

/-- One operation on a `Scroll`: a call of `set_text_length`, a call of the
inherited `set_max_length`, or a tick. -/
def step (s t : Scroll_base) : Prop :=
  (∃ x, t = set_text_length s x) ∨ (∃ x, t = s.set_max_length x) ∨ t = s.operator_call.1

end Scroll

namespace Conditional_scroll

/-- The function `Conditional_scroll::start_condition`. -/
def start_condition (s : Scroll_base) : Bool :=
  !s.is_started && decide (s.text_length_ > s.max_length_) && decide (s.text_length_ ≠ 0)

/-- The function `Conditional_scroll::stop_condition`. -/
def stop_condition (s : Scroll_base) : Bool :=
  s.is_started && decide (s.text_length_ ≤ s.max_length_)

/-- The function `Conditional_scroll::stop_and_reset`. -/
def stop_and_reset (s : Scroll_base) : Scroll_base :=
  { toAnimator_base := s.toAnimator_base.initialize_data.stop,
    begin_ := 0, hold_ := 0, hold_length_ := s.hold_length_ }

/-- The function `Conditional_scroll::set_text_length`; the class
`Conditional_scroll` adds no member to `Scroll_base`. -/
def set_text_length (s : Scroll_base) (x : Nat) : Scroll_base :=
  let s1 := Scroll_base.set_text_length s x
  if start_condition s1 then s1.start
  else if stop_condition s1 then stop_and_reset s1
  else s1

/-- The function `Conditional_scroll::set_max_length`. -/
def set_max_length (s : Scroll_base) (x : Nat) : Scroll_base :=
  let s1 := Scroll_base.set_max_length s x
  if start_condition s1 then s1.start
  else if stop_condition s1 then stop_and_reset s1
  else s1

/-- One operation on a `Conditional_scroll`: a call of `set_text_length`, a call of
`set_max_length`, or a tick. -/
def step (s t : Scroll_base) : Prop :=
  (∃ x, t = set_text_length s x) ∨ (∃ x, t = set_max_length s x) ∨ t = s.operator_call.1

end Conditional_scroll

/-! ### Operations and invariants shared by the variants -/

/-- The inherited function `Animator_base::set_max_length` on a `Scan`. -/
def Scan.set_max_length (s : Scan) (x : Nat) : Scan :=
  { s with toAnimator_base := s.toAnimator_base.set_max_length x }

/-- Emission of the inherited signal `stop` on a `Scan`. -/
def Scan.stop (s : Scan) : Scan :=
  { s with toAnimator_base := s.toAnimator_base.stop }

/-- One operation on a `Scan`: a call of `set_text_length`, a call of
`set_max_length`, or a tick. -/
def Scan.step (s t : Scan) : Prop :=
  (∃ x, t = s.set_text_length x) ∨ (∃ x, t = s.set_max_length x) ∨ t = s.operator_call.1

/-- The inherited function `Animator_base::set_max_length` on an `Unscramble`. -/
def Unscramble.set_max_length (s : Unscramble) (x : Nat) : Unscramble :=
  { s with toAnimator_base := s.toAnimator_base.set_max_length x }

/-- Emission of the inherited signal `stop` on an `Unscramble`. -/
def Unscramble.stop (s : Unscramble) : Unscramble :=
  { s with toAnimator_base := s.toAnimator_base.stop }

/-- One operation on an `Unscramble`: a call of `set_text_length` with some
outcome of the shuffle, a call of `set_max_length`, or a tick. -/
def Unscramble.step (s t : Unscramble) : Prop :=
  (∃ x shuffle, (∀ l, (shuffle l).Perm l) ∧ t = Unscramble.set_text_length shuffle s x) ∨
  (∃ x, t = s.set_max_length x) ∨ t = s.operator_call.1

/-- The members of the base without the log of emitted signals. -/
def Animator_base.members (a : Animator_base) :
    List Index_and_position × Nat × Nat × Bool :=
  (a.data_, a.max_length_, a.text_length_, a.started_)

/-- The table is the one of the current text length: it has `text_length_` entries
and their text indices are pairwise distinct values below `text_length_`, that
is, they are `0, ..., text_length_ - 1` in some order. -/
def Animator_base.table_valid (a : Animator_base) : Prop :=
  (a.data_.map Index_and_position.index).Perm (List.range a.text_length_)

/-- The table is the one of the last text length that was not zero: its text
indices are `0, ..., n - 1` in some order, `n` being the number of entries, and
the current text length is `n` or zero. -/
def Animator_base.table_valid_or_stale (a : Animator_base) : Prop :=
  (a.data_.map Index_and_position.index).Perm (List.range a.data_.length) ∧
  (a.text_length_ = a.data_.length ∨ a.text_length_ = 0)

instance (a : Animator_base) : Decidable a.table_valid := by
  unfold Animator_base.table_valid
  exact inferInstance

/-- The table of a `Scroll_base` after the window has shifted `k` times: entry `i`
has been decremented once for each shift up to `min i k`. -/
def scrolled_table (T k : Nat) : List Index_and_position :=
  (List.range T).map (fun i => { index := i, position := (i : Int) - (min i k : Nat) })

/-- The progressive reveal of a text of `T` glyphs, for an animator whose tick `k`
returns `range k` and leaves the base members `base k` and the counter `end_ k`:
every returned range is anchored at the left end of the table; up to tick `T`
the range of tick `k` has `k - 1` entries and the range of the next tick has one
entry more; every later tick returns the full range of the `T` table entries,
emits `stop` (after which the animator is not started) and leaves the table, the
text length, the width and the counter unchanged. -/
def progressive_reveal (T : Nat) (range : Nat → IP_range) (base : Nat → Animator_base)
    (end_ : Nat → Nat) : Prop :=
  (∀ k, 1 ≤ k → k ≤ T →
    range k = { begin_ := 0, end_ := k - 1 } ∧ range (k + 1) = { begin_ := 0, end_ := k }) ∧
  (∀ k, T < k →
    range k = { begin_ := 0, end_ := T } ∧
    (range k).entries (base k).data_ = (base k).data_ ∧
    (base k).data_.length = T ∧
    (base k).emitted_ = (base (k - 1)).emitted_ ++ [Signal.stop] ∧
    (base k).is_started = false ∧
    (base k).data_ = (base (k - 1)).data_ ∧
    (base k).text_length_ = (base (k - 1)).text_length_ ∧
    (base k).max_length_ = (base (k - 1)).max_length_ ∧
    end_ k = end_ (k - 1))

/-- The `Scroll_base` with the members of `B` other than the table, hold length 20,
whose window has shifted `b` times and which has held for `h` ticks. -/
def Scroll_base.shifted (B : Animator_base) (b h : Nat) : Scroll_base :=
  { toAnimator_base := { B with data_ := scrolled_table B.text_length_ b },
    begin_ := b, hold_ := h, hold_length_ := 20 }

/-! ### Example states -/

/-- An animator base that has never been started. -/
def idle_base : Animator_base :=
  { data_ := [], max_length_ := 0, text_length_ := 0, started_ := false, emitted_ := [] }

/-- A `Scan` that has never been started. -/
def idle_Scan : Scan := { toAnimator_base := idle_base, begin_ := 0, end_ := 0, hold_ := 0 }

/-- An `Unscramble` that has never been started. -/
def idle_Unscramble : Unscramble := { toAnimator_base := idle_base, sorted_to_ := 0 }

/-- A `Persistent_scan` that has never been started. -/
def idle_Persistent_scan : Persistent_scan := { toAnimator_base := idle_base, end_ := 0 }

/-- A `Random` that has never been started. -/
def idle_Random : Random := { toAnimator_base := idle_base, end_ := 0 }

/-- A `Scroll_base` that has never been started. -/
def idle_Scroll : Scroll_base :=
  { toAnimator_base := idle_base, begin_ := 0, hold_ := 0, hold_length_ := 0 }

end animator

end ox

namespace cppurses

/-! ## Text_display -/

/-- The struct `Text_display::line_info`. -/
structure line_info where
  start_index : Nat
  length : Nat
deriving DecidableEq

/-- The members of `Text_display` that the layout reads and writes, with the width
of the widget; a glyph is modelled by its character. -/
structure Text_display where
  display_state_ : List line_info
  top_line_ : Nat
  word_wrap_ : Bool
  contents_ : List Char
  width : Nat
deriving DecidableEq

/-- Modelled from the spec: the body of `Text_display::update_display` is not among
the sources (only the declaration in `text_display.hpp` is). The largest index
`i` with `start ≤ i < start + n` at which the content holds whitespace, if any:
the "earlier whitespace within the current line window". -/
def last_whitespace (contents : List Char) (start : Nat) : Nat → Option Nat
  | 0 => none
  | n + 1 =>
    match contents[start + n]? with
    | some c => if c.isWhitespace then some (start + n) else last_whitespace contents start n
    | none => last_whitespace contents start n

/-- Modelled from the spec: the body of `Text_display::update_display` is not among
the sources. Whether the break point `b` "falls inside a run of non-whitespace":
the characters on both sides of it exist and are not whitespace. -/
def inside_word (contents : List Char) (b : Nat) : Bool :=
  match contents[b - 1]?, contents[b]? with
  | some a, some c => decide (0 < b) && !a.isWhitespace && !c.isWhitespace
  | _, _ => false

/-- Modelled from the spec: the body of `Text_display::update_display` is not among
the sources. The end of the line that starts at `start`, by the greedy rule:
"consume up to `width` characters; if word-wrap is enabled and the greedy break
point falls inside a run of non-whitespace while an earlier whitespace exists
within the current line window, break after that whitespace instead; if
word-wrap is disabled, break exactly at `width`"; without whitespace in the
window the break is the hard break at the width. -/
def line_break (contents : List Char) (start width : Nat) (word_wrap : Bool) : Nat :=
  if word_wrap && inside_word contents (start + width) then
    match last_whitespace contents start width with
    | some i => i + 1
    | none => start + width
  else start + width

/-- Modelled from the spec: the body of `Text_display::update_display` is not among
the sources. The descriptors of the lines from index `start` on: a remainder
shorter than the width is the last line (it is empty when the content is empty
or ends exactly at a wrap boundary); otherwise the line ends at `line_break`
and the next line starts there. A zero width is laid out as width one
("degenerate single-character lines"). The first argument bounds the number of
lines still to be produced; `none` is returned when it is used up. -/
def layout_lines (contents : List Char) (width : Nat) (word_wrap : Bool) :
    Nat → Nat → Option (List line_info)
  | 0, _ => none
  | fuel + 1, start =>
    if contents.length - start < max width 1 then
      some [{ start_index := start, length := contents.length - start }]
    else
      let b := line_break contents start (max width 1) word_wrap
      match layout_lines contents width word_wrap fuel b with
      | some rest => some ({ start_index := start, length := b - start } :: rest)
      | none => none

/-- Modelled from the spec: the body of `Text_display::update_display` is not among
the sources. The relayout from the first line (`update_display()` with its
default argument `from_line = 0`): the line descriptors are recomputed for the
current content, width and word-wrap flag, and `top_line_` is clamped to the
last line. Every line but the last holds at least one character, so
`contents_.length + 1` lines are enough; the table is left as it is if they
were not. -/
def update_display (t : Text_display) : Text_display :=
  match layout_lines t.contents_ t.width t.word_wrap_ (t.contents_.length + 1) 0 with
  | some lines =>
    { t with display_state_ := lines, top_line_ := min t.top_line_ (lines.length - 1) }
  | none => t

/-- The descriptors are contiguous from `start` to `stop`: the first starts at
`start`, each next one starts where the one before ends, every descriptor but
the last is not empty, and the last ends at `stop`. -/
def contiguous : Nat → Nat → List line_info → Prop
  | _, _, [] => False
  | start, stop, [l] => l.start_index = start ∧ start + l.length = stop
  | start, stop, l :: m :: rest =>
    l.start_index = start ∧ 0 < l.length ∧ contiguous (start + l.length) stop (m :: rest)

/-- A `Text_display` of width 10 with word wrap holding "the quick fox jumps". -/
def quick_fox : Text_display :=
  { display_state_ := [{ start_index := 0, length := 0 }], top_line_ := 0,
    word_wrap_ := true, contents_ := "the quick fox jumps".toList, width := 10 }

end cppurses


/-! # Theorems -/

namespace mcurses

/-! ## `find_object` -/

mutual
theorem find_object_while_chain (x y : Nat) :
    ∀ o : Object, ∃ w, Chain x y o (find_object_while o x y) w
  | .mk a b c d e f cs => by
    rw [find_object_while]
    rcases find_object_for_chain x y cs 0 with ⟨h1, h2⟩ | ⟨j, c, p, w, hj, hhit, hfirst, heq, hch⟩
    · rw [h1]
      exact ⟨_, Chain.stop _ h2⟩
    · rw [heq, Nat.zero_add]
      exact ⟨w, Chain.step _ c w j p hj hfirst hhit hch⟩
theorem find_object_for_chain (x y : Nat) :
    ∀ (cs : List Object) (i : Nat),
      (find_object_for cs x y i = [] ∧ ∀ c ∈ cs, hit x y c = false) ∨
      (∃ j c p w, cs[j]? = some c ∧ hit x y c = true ∧
        (∀ j' c', j' < j → cs[j']? = some c' → hit x y c' = false) ∧
        find_object_for cs x y i = (i + j) :: p ∧ Chain x y c p w)
  | [], i => by
    left
    simp [find_object_for]
  | child :: rest, i => by
    rw [find_object_for]
    by_cases hh : hit x y child = true
    · right
      obtain ⟨w, hw⟩ := find_object_while_chain x y child
      refine ⟨0, child, _, w, by simp, hh, ?_, by simp [hh], hw⟩
      intro j' c' hj'
      omega
    · have hf : hit x y child = false := by simpa using hh
      rcases find_object_for_chain x y rest (i + 1) with
        ⟨h1, h2⟩ | ⟨j, c, p, w, hj, hhit, hfirst, heq, hch⟩
      · left
        refine ⟨by simp [hf, h1], ?_⟩
        intro c hc
        rcases List.mem_cons.mp hc with rfl | hc
        · exact hf
        · exact h2 c hc
      · right
        refine ⟨j + 1, c, p, w, by simpa using hj, hhit, ?_, ?_, hch⟩
        · intro j' c' hj' hc'
          cases j' with
          | zero =>
            simp at hc'
            subst hc'
            exact hf
          | succ n =>
            exact hfirst n c' (by omega) (by simpa using hc')
        · simp [hf, heq]
          omega
end

theorem Chain.deref_eq {x y : Nat} {o w : Object} {p : List Nat} (h : Chain x y o p w) :
    o.deref p = some w := by
  induction h with
  | stop o _ => rfl
  | step o c w i p hc _ _ _ ih => simp [Object.deref, hc, ih]

theorem Chain.no_child_hit {x y : Nat} {o w : Object} {p : List Nat} (h : Chain x y o p w) :
    ∀ c ∈ w.children, hit x y c = false := by
  induction h with
  | stop o h => exact h
  | step _ _ _ _ _ _ _ _ _ ih => exact ih

theorem Chain.nil_iff {x y : Nat} {o w : Object} {p : List Nat} (h : Chain x y o p w) :
    p = [] ↔ ∀ c ∈ o.children, hit x y c = false := by
  cases h with
  | stop o h => exact ⟨fun _ => h, fun _ => rfl⟩
  | step o c w i p hc _ hhit _ =>
    constructor
    · intro h0
      cases h0
    · intro hall
      have hmem : c ∈ o.children := List.getElem?_mem hc
      rw [hall c hmem] at hhit
      cases hhit

theorem Chain.below_head_hit {x y : Nat} {o w : Object} {p : List Nat} (h : Chain x y o p w) :
    ∀ q r v, q ≠ [] → p = q ++ r → o.deref q = some v → hit x y v = true := by
  induction h with
  | stop o _ =>
    intro q r v hq hp
    cases q with
    | nil => exact absurd rfl hq
    | cons a q => cases hp
  | step o c w i p hc _ hhit _ ih =>
    intro q r v hq hp hv
    cases q with
    | nil => exact absurd rfl hq
    | cons a q =>
      simp only [List.cons_append, List.cons.injEq] at hp
      obtain ⟨rfl, hp⟩ := hp
      simp only [Object.deref, hc] at hv
      cases q with
      | nil =>
        simp only [Object.deref, Option.some.injEq] at hv
        subst hv
        exact hhit
      | cons b q => exact ih (b :: q) r v (by simp) hp hv

theorem Chain.end_has_coordinates {x y : Nat} {o w : Object} {p : List Nat}
    (h : Chain x y o p w) (ho : o.has_coordinates x y = true) :
    w.has_coordinates x y = true := by
  induction h with
  | stop o _ => exact ho
  | step o c w i p _ _ hhit _ ih =>
    apply ih
    simp only [hit, Bool.and_eq_true] at hhit
    exact hhit.1

theorem find_object_some_chain {root : Object} {x y : Nat} {p : List Nat}
    (h : find_object (some root) x y = some p) :
    root.has_coordinates x y = true ∧ ∃ w, Chain x y root p w := by
  simp only [find_object] at h
  by_cases hr : root.has_coordinates x y = true
  · simp only [hr, Bool.not_true, Bool.false_eq_true, if_false, Option.some.injEq] at h
    subst h
    exact ⟨hr, find_object_while_chain x y root⟩
  · simp [hr] at h

theorem find_object_of_has_coordinates {root : Object} {x y : Nat}
    (h : root.has_coordinates x y = true) :
    find_object (some root) x y = some (find_object_while root x y) := by
  simp [find_object, h]

/-- The descent of `find_object` does not reach the most deeply nested enabled
widget containing the point. In `overlapping_tree` it returns the first
child (depth 1) although the enabled widget at path `[1, 0]` (depth 2) contains
the point; in `disabled_branch_tree` it returns the head (depth 0) although the
enabled widget at path `[0, 0]` contains the point. -/
theorem find_object_not_deepest :
    (overlapping_tree.has_coordinates 0 0 = true ∧
      find_object (some overlapping_tree) 0 0 = some [0] ∧
      (overlapping_tree.deref [1, 0]).map
        (fun v => (v.is_enabled, v.has_coordinates 0 0)) = some (true, true) ∧
      [0].length < [1, 0].length) ∧
    (disabled_branch_tree.has_coordinates 0 0 = true ∧
      find_object (some disabled_branch_tree) 0 0 = some [] ∧
      (disabled_branch_tree.deref [0, 0]).map
        (fun v => (v.is_enabled, v.has_coordinates 0 0)) = some (true, true) ∧
      ([] : List Nat).length < [0, 0].length) := by
  decide

/-- C1, amended: when the head contains the point, `find_object` returns a widget
`w` at a path `p` such that `w` contains the point, `w` is enabled unless it is
the head, no child of `w` is enabled and contains the point (so `w` is deepest
along the chain that the descent follows), and `p` is the head exactly when no
enabled child of the head contains the point. -/
theorem find_object_greedy_deepest (root : Object) (x y : Nat)
    (hroot : root.has_coordinates x y = true) :
    ∃ p w, find_object (some root) x y = some p ∧ root.deref p = some w ∧
      w.has_coordinates x y = true ∧
      (p ≠ [] → w.is_enabled = true) ∧
      (∀ c ∈ w.children, ¬ (c.is_enabled = true ∧ c.has_coordinates x y = true)) ∧
      (p = [] ↔
        ∀ c ∈ root.children, ¬ (c.is_enabled = true ∧ c.has_coordinates x y = true)) := by
  obtain ⟨w, hw⟩ := find_object_while_chain x y root
  have hnot : ∀ o : Object, (∀ c ∈ o.children, hit x y c = false) ↔
      ∀ c ∈ o.children, ¬ (c.is_enabled = true ∧ c.has_coordinates x y = true) := by
    intro o
    constructor
    · intro h c hc hcon
      have := h c hc
      simp [hit, hcon.1, hcon.2] at this
    · intro h c hc
      have := h c hc
      cases he : c.is_enabled <;> cases hh : c.has_coordinates x y <;> simp_all [hit]
  refine ⟨_, w, find_object_of_has_coordinates hroot, hw.deref_eq,
    hw.end_has_coordinates hroot, ?_, (hnot w).mp hw.no_child_hit, ?_⟩
  · intro hp
    have := hw.below_head_hit _ [] w hp (by simp) hw.deref_eq
    simp only [hit, Bool.and_eq_true] at this
    exact this.2
  · exact hw.nil_iff.trans (hnot root)

/-- The greedy descent on `press_tree` at `(5,5)`, a point inside the head. -/
theorem find_object_greedy_deepest_witness :
    press_tree.has_coordinates 5 5 = true ∧
    ∃ p w, find_object (some press_tree) 5 5 = some p ∧ press_tree.deref p = some w ∧
      w.has_coordinates 5 5 = true ∧
      (p ≠ [] → w.is_enabled = true) ∧
      (∀ c ∈ w.children, ¬ (c.is_enabled = true ∧ c.has_coordinates 5 5 = true)) ∧
      (p = [] ↔
        ∀ c ∈ press_tree.children,
          ¬ (c.is_enabled = true ∧ c.has_coordinates 5 5 = true)) :=
  ⟨by decide, find_object_greedy_deepest press_tree 5 5 (by decide)⟩

/-- C9: `find_object` returns `none` exactly when there is no head or the head does
not contain the point; when the head contains the point it returns a widget,
and the rectangle of that widget contains the point. -/
theorem find_object_none_iff (head : Option Object) (x y : Nat) :
    (find_object head x y = none ↔
      (head = none ∨ ∃ root, head = some root ∧ root.has_coordinates x y = false)) ∧
    (∀ root, head = some root → root.has_coordinates x y = true →
      ∃ p w, find_object head x y = some p ∧ root.deref p = some w ∧
        w.has_coordinates x y = true) := by
  constructor
  · cases head with
    | none => simp [find_object]
    | some root =>
      cases hr : root.has_coordinates x y <;> simp [find_object, hr]
  · intro root hhead hroot
    subst hhead
    obtain ⟨w, hw⟩ := find_object_while_chain x y root
    exact ⟨_, w, find_object_of_has_coordinates hroot, hw.deref_eq,
      hw.end_has_coordinates hroot⟩

/-- On `press_tree` the point `(5,5)` is found in a widget containing it, and the
point `(90,5)` outside the head is not found. -/
theorem find_object_none_iff_witness :
    (∃ p w, find_object (some press_tree) 5 5 = some p ∧ press_tree.deref p = some w ∧
      w.has_coordinates 5 5 = true) ∧
    find_object (some press_tree) 90 5 = none :=
  ⟨(find_object_none_iff (some press_tree) 5 5).2 press_tree rfl (by decide),
   (find_object_none_iff (some press_tree) 90 5).1.mpr
     (Or.inr ⟨press_tree, rfl, by decide⟩)⟩

/-- The enabled flag of the head is never read: a disabled head that contains the
point is returned. -/
theorem find_object_returns_disabled_head :
    find_object (some (leaf false)) 0 0 = some [] ∧
    ((leaf false).deref []).map Object.is_enabled = some false := by
  decide

/-- C10, amended: every widget on the path from the head to the widget returned by
`find_object`, the head itself excepted, is enabled: the returned widget when it
is not the head, and each of its ancestors below the head. -/
theorem find_object_enabled_below_head (root : Object) (x y : Nat) (p q r : List Nat)
    (v : Object) (hfind : find_object (some root) x y = some p)
    (hq : q ≠ []) (hp : p = q ++ r) (hv : root.deref q = some v) :
    v.is_enabled = true := by
  obtain ⟨_, w, hw⟩ := find_object_some_chain hfind
  have := hw.below_head_hit q r v hq hp hv
  simp only [hit, Bool.and_eq_true] at this
  exact this.2

/-- On `press_tree` at `(5,5)` the child returned by the descent is enabled. -/
theorem find_object_enabled_below_head_witness :
    find_object (some press_tree) 5 5 = some [0] ∧
    (Object.mk true 2 2 10 10 true []).is_enabled = true :=
  ⟨by decide,
   find_object_enabled_below_head press_tree 5 5 [0] [0] [] (.mk true 2 2 10 10 true [])
     (by decide) (by decide) (by decide) rfl⟩

/-! ## `parse_mouse_event` and `post_user_input` -/

theorem to_unsigned_of_nonneg {v : Int} (h0 : 0 ≤ v) (h1 : v < 4294967296) :
    (to_unsigned v : Int) = v := by
  unfold to_unsigned
  omega

theorem has_coordinates_le {o : Object} {x y : Nat} (h : o.has_coordinates x y = true) :
    o.global_x ≤ x ∧ o.global_y ≤ y := by
  simp only [Object.has_coordinates, decide_eq_true_eq] at h
  omega

theorem dynamic_cast_Widget_some {head : Option Object} {p : List Nat} {w : Object}
    (h : dynamic_cast_Widget head (some p) = some w) :
    ∃ root, head = some root ∧ root.deref p = some w ∧ w.is_widget = true := by
  cases head with
  | none => simp [dynamic_cast_Widget] at h
  | some root =>
    simp only [dynamic_cast_Widget] at h
    cases hd : root.deref p with
    | none => simp [hd] at h
    | some v =>
      simp only [hd] at h
      by_cases hv : v.is_widget = true
      · simp only [hv, if_true, Option.some.injEq] at h
        subst h
        exact ⟨root, rfl, hd, hv⟩
      · simp [hv] at h

theorem find_object_pointee_has_coordinates {head : Option Object} {x y : Nat}
    {p : List Nat} {w : Object} (hf : find_object head x y = some p)
    (hw : dynamic_cast_Widget head (some p) = some w) : w.has_coordinates x y = true := by
  obtain ⟨root, rfl, hd, _⟩ := dynamic_cast_Widget_some hw
  obtain ⟨hroot, v, hv⟩ := find_object_some_chain hf
  have := hv.deref_eq
  rw [hd] at this
  cases this
  exact hv.end_has_coordinates hroot

/-- C6: for a mouse input with a recognised button mask at the screen position
`(x, y)` for which `find_object` yields a widget with origin `(gx, gy)`,
`parse_mouse_event` returns that widget together with a mouse event carrying
the classified type and button, the position `(x, y)` unchanged and the local
position `(x - gx, y - gy)`; and "button 1 pressed" at `(5,5)` over the widget at
origin `(2,2)` yields a press of the left button with local position `(3,3)`. -/
theorem parse_mouse_event_local_position :
    (∀ (k : NCurses) (head : Option Object) (m : MEVENT) (ty : Event_type) (b : Button)
        (p : List Nat) (w : Object),
      m.on_screen →
      parse_bstate k m.bstate = some (ty, b) →
      find_object head (to_unsigned m.x) (to_unsigned m.y) = some p →
      dynamic_cast_Widget head (some p) = some w →
      ∃ local_x local_y : Nat,
        parse_mouse_event k head (some m) =
          (some p, some (Event.Mouse_event ty b m.x m.y local_x local_y m.id)) ∧
        (local_x : Int) = m.x - w.global_x ∧ (local_y : Int) = m.y - w.global_y) ∧
    parse_mouse_event ncurses6 (some press_tree) (some press_at_5_5) =
      (some [0], some (Event.Mouse_event Event_type.MouseButtonPress Button.LeftButton
        5 5 3 3 0)) := by
  refine ⟨?_, by decide⟩
  intro k head m ty b p w hm hb hf hw
  have hh := has_coordinates_le (find_object_pointee_has_coordinates hf hw)
  obtain ⟨hx0, hx1, hy0, hy1⟩ := hm
  have hx := to_unsigned_of_nonneg hx0 (by omega)
  have hy := to_unsigned_of_nonneg hy0 (by omega)
  refine ⟨to_unsigned (m.x - w.global_x), to_unsigned (m.y - w.global_y), ?_, ?_, ?_⟩
  · simp only [parse_mouse_event, hb, hf, hw]
  · exact to_unsigned_of_nonneg (by omega) (by omega)
  · exact to_unsigned_of_nonneg (by omega) (by omega)

/-- The general translation into local coordinates, applied to "button 1 pressed"
at `(5,5)` over `press_tree`. -/
theorem parse_mouse_event_local_position_witness :
    press_at_5_5.on_screen ∧
    parse_bstate ncurses6 press_at_5_5.bstate =
      some (Event_type.MouseButtonPress, Button.LeftButton) ∧
    find_object (some press_tree) (to_unsigned press_at_5_5.x) (to_unsigned press_at_5_5.y) =
      some [0] ∧
    ∃ local_x local_y : Nat,
      parse_mouse_event ncurses6 (some press_tree) (some press_at_5_5) =
        (some [0], some (Event.Mouse_event Event_type.MouseButtonPress Button.LeftButton
          press_at_5_5.x press_at_5_5.y local_x local_y press_at_5_5.id)) ∧
      (local_x : Int) = press_at_5_5.x - (Object.mk true 2 2 10 10 true []).global_x ∧
      (local_y : Int) = press_at_5_5.y - (Object.mk true 2 2 10 10 true []).global_y :=
  ⟨by decide, by decide, by decide,
   parse_mouse_event_local_position.1 ncurses6 (some press_tree) press_at_5_5
     Event_type.MouseButtonPress Button.LeftButton [0] (.mk true 2 2 10 10 true [])
     (by decide) (by decide) (by decide) rfl⟩

/-- C7: the classification of the button state is a fixed table. Each of the ten
single-bit masks (buttons 1 to 5, pressed or released) is mapped to the pair of
the matching kind (press or release) and of a button among left, middle,
right, scroll-down, scroll-up; the ten pairs are pairwise distinct; and a
button state in which none of the ten bits is set yields no event. -/
theorem parse_bstate_table (k : NCurses) (hk : k.single_bits) :
    k.button_masks.map (parse_bstate k) =
      [some (Event_type.MouseButtonPress, Button.LeftButton),
       some (Event_type.MouseButtonRelease, Button.LeftButton),
       some (Event_type.MouseButtonPress, Button.MidButton),
       some (Event_type.MouseButtonRelease, Button.MidButton),
       some (Event_type.MouseButtonPress, Button.RightButton),
       some (Event_type.MouseButtonRelease, Button.RightButton),
       some (Event_type.MouseButtonPress, Button.ScrollDown),
       some (Event_type.MouseButtonRelease, Button.ScrollDown),
       some (Event_type.MouseButtonPress, Button.ScrollUp),
       some (Event_type.MouseButtonRelease, Button.ScrollUp)] ∧
    (k.button_masks.map (parse_bstate k)).Nodup ∧
    ∀ bstate : Nat, (∀ m ∈ k.button_masks, bstate &&& m = 0) →
      parse_bstate k bstate = none ∧
      ∀ (head : Option Object) (m : MEVENT), m.bstate = bstate →
        parse_mouse_event k head (some m) = (none, none) := by
  have htable : k.button_masks.map (parse_bstate k) =
      [some (Event_type.MouseButtonPress, Button.LeftButton),
       some (Event_type.MouseButtonRelease, Button.LeftButton),
       some (Event_type.MouseButtonPress, Button.MidButton),
       some (Event_type.MouseButtonRelease, Button.MidButton),
       some (Event_type.MouseButtonPress, Button.RightButton),
       some (Event_type.MouseButtonRelease, Button.RightButton),
       some (Event_type.MouseButtonPress, Button.ScrollDown),
       some (Event_type.MouseButtonRelease, Button.ScrollDown),
       some (Event_type.MouseButtonPress, Button.ScrollUp),
       some (Event_type.MouseButtonRelease, Button.ScrollUp)] := by
    obtain ⟨h0, hp⟩ := hk
    have hp2 : k.button_masks.Pairwise (fun a b => b &&& a = 0) :=
      hp.imp (by
        intro a b h
        rw [Nat.land_comm]
        exact h)
    simp only [NCurses.button_masks, List.pairwise_cons, List.mem_cons, List.mem_singleton,
      forall_eq_or_imp, forall_eq, List.not_mem_nil, false_implies, implies_true,
      List.Pairwise.nil, and_true] at hp2 h0
    simp only [NCurses.button_masks, List.map_cons, List.map_nil, parse_bstate, Nat.and_self,
      hp2, h0, ne_eq, not_true_eq_false, not_false_eq_true, if_true, if_false]
  refine ⟨htable, ?_, ?_⟩
  · rw [htable]
    decide
  · intro bstate hnone
    have hb : parse_bstate k bstate = none := by
      simp only [NCurses.button_masks, List.mem_cons, List.mem_singleton, forall_eq_or_imp,
        forall_eq, List.not_mem_nil, false_implies, implies_true, and_true] at hnone
      simp [parse_bstate, hnone]
    refine ⟨hb, ?_⟩
    intro head m hm
    subst hm
    simp [parse_mouse_event, hb]

/-- The classification table for the masks of ncurses 6. -/
theorem parse_bstate_table_witness :
    ncurses6.single_bits ∧
    parse_bstate ncurses6 2 = some (Event_type.MouseButtonPress, Button.LeftButton) ∧
    parse_bstate ncurses6 0 = none :=
  ⟨by decide,
   by
     have h := (parse_bstate_table ncurses6 (by decide)).1
     simp only [NCurses.button_masks, List.map_cons, List.cons.injEq] at h
     exact h.1,
   ((parse_bstate_table ncurses6 (by decide)).2.2 0 (by decide)).1⟩

theorem parse_mouse_event_cases (k : NCurses) (head : Option Object)
    (getmouse : Option MEVENT) :
    (∃ p ev, mouse_input_resolves k head getmouse p ∧
      parse_mouse_event k head getmouse = (some p, some ev)) ∨
    ((¬ ∃ p, mouse_input_resolves k head getmouse p) ∧
      parse_mouse_event k head getmouse = (none, none)) := by
  cases getmouse with
  | none =>
    right
    refine ⟨?_, rfl⟩
    rintro ⟨p, m, w, hm, _⟩
    cases hm
  | some m =>
    cases hb : parse_bstate k m.bstate with
    | none =>
      right
      refine ⟨?_, by simp [parse_mouse_event, hb]⟩
      rintro ⟨p, m', w, hm, hs, _⟩
      cases hm
      simp [hb] at hs
    | some tb =>
      obtain ⟨ty, b⟩ := tb
      cases hf : find_object head (to_unsigned m.x) (to_unsigned m.y) with
      | none =>
        right
        refine ⟨?_, ?_⟩
        · rintro ⟨p, m', w, hm, _, hf', _⟩
          cases hm
          rw [hf] at hf'
          cases hf'
        · have hc : dynamic_cast_Widget head none = none := by
            cases head <;> rfl
          simp [parse_mouse_event, hb, hf, hc]
      | some p =>
        cases hc : dynamic_cast_Widget head (some p) with
        | none =>
          right
          refine ⟨?_, by simp [parse_mouse_event, hb, hf, hc]⟩
          rintro ⟨p', m', w, hm, _, hf', hc'⟩
          cases hm
          rw [hf] at hf'
          cases hf'
          rw [hc] at hc'
          cases hc'
        | some w =>
          left
          exact ⟨p, Event.Mouse_event ty b m.x m.y (to_unsigned (m.x - w.global_x))
            (to_unsigned (m.y - w.global_y)) m.id, ⟨m, w, rfl, by simp [hb], hf, hc⟩,
            by simp [parse_mouse_event, hb, hf, hc]⟩

/-- C8: one dispatch iteration on a mouse input posts exactly one pair
(target, event) if and only if the mouse read succeeds, the button state is
recognised and `find_object` at the position of the event yields a widget; the
target of the posted pair is that result of `find_object`; in every other case
the iteration completes and posts nothing. -/
theorem post_user_input_mouse (k : NCurses) (head : Option Object)
    (getmouse : Option MEVENT) :
    (∀ target : List Nat,
      (∃ ev, post_user_input k head k.KEY_MOUSE getmouse =
        .ok { posted := [(target, ev)], cycle_tab_focus := false }) ↔
      mouse_input_resolves k head getmouse target) ∧
    ((¬ ∃ p, mouse_input_resolves k head getmouse p) →
      post_user_input k head k.KEY_MOUSE getmouse =
        .ok { posted := [], cycle_tab_focus := false }) := by
  have hpost : post_user_input k head k.KEY_MOUSE getmouse =
      .ok (post_if_both (parse_mouse_event k head getmouse).1
        (parse_mouse_event k head getmouse).2 false) := by
    simp [post_user_input]
  rcases parse_mouse_event_cases k head getmouse with ⟨p, ev, hres, heq⟩ | ⟨hno, heq⟩
  · rw [hpost, heq]
    simp only [post_if_both]
    refine ⟨?_, fun h => absurd ⟨p, hres⟩ h⟩
    intro target
    constructor
    · rintro ⟨ev', h⟩
      simp only [Except.ok.injEq, Effects.mk.injEq, List.cons.injEq, Prod.mk.injEq,
        and_true] at h
      rw [← h.1]
      exact hres
    · intro h
      obtain ⟨m, w, hm, _, hf, _⟩ := hres
      obtain ⟨m', w', hm', _, hf', _⟩ := h
      rw [hm] at hm'
      cases hm'
      rw [hf] at hf'
      cases hf'
      exact ⟨ev, rfl⟩
  · rw [hpost, heq]
    simp only [post_if_both]
    refine ⟨?_, fun _ => trivial⟩
    intro target
    constructor
    · rintro ⟨ev', h⟩
      simp at h
    · intro h
      exact absurd ⟨target, h⟩ hno

/-- A press over `press_tree` is posted to the child under the pointer. -/
theorem post_user_input_mouse_witness :
    mouse_input_resolves ncurses6 (some press_tree) (some press_at_5_5) [0] ∧
    (∃ ev, post_user_input ncurses6 (some press_tree) ncurses6.KEY_MOUSE (some press_at_5_5) =
      .ok { posted := [([0], ev)], cycle_tab_focus := false }) :=
  ⟨⟨press_at_5_5, .mk true 2 2 10 10 true [], rfl, by decide, by decide, rfl⟩,
   ((post_user_input_mouse ncurses6 (some press_tree) (some press_at_5_5)).1 [0]).mpr
     ⟨press_at_5_5, .mk true 2 2 10 10 true [], rfl, by decide, by decide, rfl⟩⟩

end mcurses

namespace ox.animator

/-! ## Scan -/

/-- The base part of a `Scan` right after `set_text_length T`. -/
theorem Scan.set_text_length_eq (s0 : Scan) (T : Nat) (hT : 0 < T) :
    s0.set_text_length T =
      { toAnimator_base := (s0.toAnimator_base.set_text_length T).initialize_data.start,
        begin_ := 0, end_ := 0, hold_ := 0 } := by
  have : T ≠ 0 := by omega
  simp [Scan.set_text_length, Animator_base.set_text_length, this]

theorem Scan.operator_call_grow (B : Animator_base) (e : Nat) (he : e < B.text_length_)
    (hsize : B.text_length_ * 3 < SIZE_MOD) :
    (Scan.operator_call { toAnimator_base := B, begin_ := 0, end_ := e, hold_ := 0 }).1 =
      { toAnimator_base := B, begin_ := 0, end_ := e + 1, hold_ := 0 } := by
  have h1 : e ≠ B.text_length_ := by omega
  have h2 : (e + 1) % SIZE_MOD = e + 1 := Nat.mod_eq_of_lt (by omega)
  simp [Scan.operator_call, h1, h2]

theorem Scan.operator_call_hold (B : Animator_base) (h : Nat) (hh : h < B.text_length_ * 3)
    (hsize : B.text_length_ * 3 < SIZE_MOD) :
    (Scan.operator_call
      { toAnimator_base := B, begin_ := 0, end_ := B.text_length_, hold_ := h }).1 =
      { toAnimator_base := B, begin_ := 0, end_ := B.text_length_, hold_ := h + 1 } := by
  have h0 : B.text_length_ * 3 % SIZE_MOD = B.text_length_ * 3 := Nat.mod_eq_of_lt hsize
  have h1 : h ≠ B.text_length_ * 3 := by omega
  have h2 : (h + 1) % SIZE_MOD = h + 1 := Nat.mod_eq_of_lt (by omega)
  simp [Scan.operator_call, h0, h1, h2]

theorem Scan.operator_call_shrink (B : Animator_base) (b : Nat) (hb : b < B.text_length_)
    (hsize : B.text_length_ * 3 < SIZE_MOD) :
    (Scan.operator_call
      { toAnimator_base := B, begin_ := b, end_ := B.text_length_,
        hold_ := B.text_length_ * 3 }).1 =
      { toAnimator_base := B, begin_ := b + 1, end_ := B.text_length_,
        hold_ := B.text_length_ * 3 } := by
  have h0 : B.text_length_ * 3 % SIZE_MOD = B.text_length_ * 3 := Nat.mod_eq_of_lt hsize
  have h1 : b ≠ B.text_length_ := by omega
  have h2 : (b + 1) % SIZE_MOD = b + 1 := Nat.mod_eq_of_lt (by omega)
  simp [Scan.operator_call, h0, h1, h2]

theorem Scan.operator_call_stop (B : Animator_base) (hsize : B.text_length_ * 3 < SIZE_MOD)
    (hT : 0 < B.text_length_) :
    (Scan.operator_call
      { toAnimator_base := B, begin_ := B.text_length_, end_ := B.text_length_,
        hold_ := B.text_length_ * 3 }).1 =
      { toAnimator_base := B.stop, begin_ := B.text_length_, end_ := B.text_length_,
        hold_ := B.text_length_ * 3 } := by
  have h0 : B.text_length_ * 3 % SIZE_MOD = B.text_length_ * 3 := Nat.mod_eq_of_lt hsize
  have h1 : B.text_length_ ≠ 0 := by omega
  simp [Scan.operator_call, h0, h1]

theorem Scan.operator_call_range (s : Scan) :
    s.operator_call.2 = { begin_ := s.operator_call.1.begin_, end_ := s.operator_call.1.end_ } := by
  rfl

/-- The state of a `Scan` after `k` ticks, in each of the three phases. -/
theorem Scan.ticks_phases (B : Animator_base) (hT : 0 < B.text_length_)
    (hsize : B.text_length_ * 3 < SIZE_MOD) (k : Nat) :
    (k ≤ B.text_length_ →
      Scan.ticks k { toAnimator_base := B, begin_ := 0, end_ := 0, hold_ := 0 } =
        { toAnimator_base := B, begin_ := 0, end_ := k, hold_ := 0 }) ∧
    (B.text_length_ ≤ k → k ≤ 4 * B.text_length_ →
      Scan.ticks k { toAnimator_base := B, begin_ := 0, end_ := 0, hold_ := 0 } =
        { toAnimator_base := B, begin_ := 0, end_ := B.text_length_,
          hold_ := k - B.text_length_ }) ∧
    (4 * B.text_length_ ≤ k → k ≤ 5 * B.text_length_ →
      Scan.ticks k { toAnimator_base := B, begin_ := 0, end_ := 0, hold_ := 0 } =
        { toAnimator_base := B, begin_ := k - 4 * B.text_length_, end_ := B.text_length_,
          hold_ := B.text_length_ * 3 }) := by
  induction k with
  | zero =>
    refine ⟨fun _ => rfl, fun h _ => ?_, fun h _ => ?_⟩ <;> omega
  | succ k ih =>
    obtain ⟨ih1, ih2, ih3⟩ := ih
    refine ⟨?_, ?_, ?_⟩
    · intro hk
      rw [Scan.ticks, ih1 (by omega), Scan.operator_call_grow B k (by omega) hsize]
    · intro hk1 hk2
      by_cases hk : B.text_length_ ≤ k
      · rw [Scan.ticks, ih2 hk (by omega), Scan.operator_call_hold B _ (by omega) hsize]
        congr 1
        omega
      · have hkT : k + 1 = B.text_length_ := by omega
        rw [Scan.ticks, ih1 (by omega), Scan.operator_call_grow B k (by omega) hsize]
        congr 1
        omega
    · intro hk1 hk2
      by_cases hk : 4 * B.text_length_ ≤ k
      · rw [Scan.ticks, ih3 hk (by omega), Scan.operator_call_shrink B _ (by omega) hsize]
        congr 1
        omega
      · have hkT : k + 1 = 4 * B.text_length_ := by omega
        rw [Scan.ticks, ih2 (by omega) (by omega),
          Scan.operator_call_hold B _ (by omega) hsize]
        congr 1 <;> omega

theorem Scan.operator_call_data (s : Scan) : s.operator_call.1.data_ = s.data_ := by
  simp only [Scan.operator_call]
  split_ifs <;> rfl

theorem Scan.ticks_data (k : Nat) (s : Scan) : (Scan.ticks k s).data_ = s.data_ := by
  induction k with
  | zero => rfl
  | succ k ih => rw [Scan.ticks, Scan.operator_call_data, ih]

theorem Scan.range_of_tick_eq (k : Nat) (hk : 1 ≤ k) (s : Scan) :
    Scan.range_of_tick k s =
      { begin_ := (Scan.ticks k s).begin_, end_ := (Scan.ticks k s).end_ } := by
  obtain ⟨j, rfl⟩ : ∃ j, k = j + 1 := ⟨k - 1, by omega⟩
  rfl

theorem iota_table_length (n : Nat) : (iota_table n).length = n := by
  simp [iota_table]

/-- C2: for a `Scan` freshly initialised by `set_text_length T` with `T > 0` (and
`T ≤ INT_MAX`, so that the `int` positions of the table do not overflow), the
table stays the one built at initialisation and the range returned by tick
`k` is: the first `k` table entries `[0, k)` for `1 ≤ k ≤ T`; the full range
`[0, T)` for `T ≤ k ≤ 4 T`; and `[k - 4 T, T)`, the table without its first
`k - 4 T` entries, for `4 T < k ≤ 5 T`. -/
theorem Scan_range_of_tick (s0 : Scan) (T k : Nat) (hT : 0 < T) (hint : T ≤ INT_MAX) :
    (Scan.ticks k (s0.set_text_length T)).data_ = iota_table T ∧
    (1 ≤ k → k ≤ T →
      Scan.range_of_tick k (s0.set_text_length T) = { begin_ := 0, end_ := k } ∧
      (Scan.range_of_tick k (s0.set_text_length T)).entries (iota_table T) =
        (iota_table T).take k) ∧
    (T ≤ k → k ≤ 4 * T →
      Scan.range_of_tick k (s0.set_text_length T) = { begin_ := 0, end_ := T } ∧
      (Scan.range_of_tick k (s0.set_text_length T)).entries (iota_table T) = iota_table T) ∧
    (4 * T < k → k ≤ 5 * T →
      Scan.range_of_tick k (s0.set_text_length T) = { begin_ := k - 4 * T, end_ := T } ∧
      (Scan.range_of_tick k (s0.set_text_length T)).entries (iota_table T) =
        (iota_table T).drop (k - 4 * T)) := by
  have hsize : T * 3 < SIZE_MOD := by
    simp only [SIZE_MOD, INT_MAX] at *
    omega
  have hB : ((s0.toAnimator_base.set_text_length T).initialize_data.start).text_length_ = T :=
    rfl
  have hph := Scan.ticks_phases ((s0.toAnimator_base.set_text_length T).initialize_data.start)
    (by rw [hB]; exact hT) (by rw [hB]; exact hsize) k
  rw [hB] at hph
  obtain ⟨h1, h2, h3⟩ := hph
  rw [Scan.set_text_length_eq s0 T hT]
  refine ⟨by rw [Scan.ticks_data]; rfl, ?_, ?_, ?_⟩
  · intro hk1 hk2
    rw [Scan.range_of_tick_eq k hk1, h1 hk2]
    simp [IP_range.entries]
  · intro hk1 hk2
    rw [Scan.range_of_tick_eq k (by omega), h2 hk1 hk2]
    simp [IP_range.entries, iota_table_length]
  · intro hk1 hk2
    rw [Scan.range_of_tick_eq k (by omega), h3 (by omega) hk2]
    refine ⟨rfl, ?_⟩
    simp only [IP_range.entries]
    apply List.take_of_length_le
    simp [iota_table_length]

/-- The range of a `Scan` with text length 2 at tick 9, in the shrinking phase. -/
theorem Scan_range_of_tick_witness :
    0 < 2 ∧ 2 ≤ INT_MAX ∧
    Scan.range_of_tick 9 (idle_Scan.set_text_length 2) = { begin_ := 1, end_ := 2 } :=
  ⟨by decide, by decide,
   ((Scan_range_of_tick idle_Scan 2 9 (by decide) (by decide)).2.2.2
     (by decide) (by decide)).1⟩

/-- With text length 1, after exactly 5 ticks a `Scan` is still started and no
`stop` has been emitted. -/
theorem Scan_not_stopped_after_5T :
    (Scan.ticks 5 (idle_Scan.set_text_length 1)).toAnimator_base.is_started = true ∧
    (Scan.ticks 5 (idle_Scan.set_text_length 1)).emitted_ = [Signal.start] := by
  decide

/-- C3, amended: for a `Scan` freshly initialised by `set_text_length T` with
`T > 0`, tick `5 T` returns the empty range `[T, T)` and leaves the animator
started, no `stop` having been emitted by the first `5 T` ticks; tick `5 T + 1`
emits `stop`, so that `is_started` is false after it, and returns the empty range
again. -/
theorem Scan_stops_on_tick_5T_plus_1 (s0 : Scan) (T : Nat) (hT : 0 < T)
    (hsize : T * 3 < SIZE_MOD) :
    Scan.range_of_tick (5 * T) (s0.set_text_length T) = { begin_ := T, end_ := T } ∧
    (Scan.range_of_tick (5 * T) (s0.set_text_length T)).entries
      (Scan.ticks (5 * T) (s0.set_text_length T)).data_ = [] ∧
    (Scan.ticks (5 * T) (s0.set_text_length T)).toAnimator_base.is_started = true ∧
    (Scan.ticks (5 * T) (s0.set_text_length T)).emitted_ = s0.emitted_ ++ [Signal.start] ∧
    Scan.range_of_tick (5 * T + 1) (s0.set_text_length T) = { begin_ := T, end_ := T } ∧
    (Scan.ticks (5 * T + 1) (s0.set_text_length T)).toAnimator_base.is_started = false ∧
    (Scan.ticks (5 * T + 1) (s0.set_text_length T)).emitted_ =
      s0.emitted_ ++ [Signal.start, Signal.stop] := by
  have hB : ((s0.toAnimator_base.set_text_length T).initialize_data.start).text_length_ = T :=
    rfl
  have hph := (Scan.ticks_phases ((s0.toAnimator_base.set_text_length T).initialize_data.start)
    (by rw [hB]; exact hT) (by rw [hB]; exact hsize) (5 * T)).2.2
  rw [hB] at hph
  have h5 := hph (by omega) (by omega)
  have hsub : 5 * T - 4 * T = T := by omega
  rw [hsub] at h5
  have hstop := Scan.operator_call_stop
    ((s0.toAnimator_base.set_text_length T).initialize_data.start)
    (by rw [hB]; exact hsize) (by rw [hB]; exact hT)
  rw [hB] at hstop
  have h6 : Scan.ticks (5 * T + 1) (s0.set_text_length T) =
      { toAnimator_base := ((s0.toAnimator_base.set_text_length T).initialize_data.start).stop,
        begin_ := T, end_ := T, hold_ := T * 3 } := by
    rw [Scan.ticks, Scan.set_text_length_eq s0 T hT, h5, hstop]
  rw [Scan.set_text_length_eq s0 T hT] at h6 ⊢
  rw [Scan.range_of_tick_eq _ (by omega), Scan.range_of_tick_eq _ (by omega), h5, h6]
  refine ⟨rfl, ?_, rfl, rfl, rfl, rfl, ?_⟩
  · simp [IP_range.entries]
  · simp [Animator_base.stop, Animator_base.start, Animator_base.initialize_data,
      Animator_base.set_text_length]

/-- A `Scan` with text length 1 is started after 5 ticks and stopped after 6. -/
theorem Scan_stops_on_tick_5T_plus_1_witness :
    0 < 1 ∧ 1 * 3 < SIZE_MOD ∧
    (Scan.ticks (5 * 1) (idle_Scan.set_text_length 1)).toAnimator_base.is_started = true ∧
    (Scan.ticks (5 * 1 + 1) (idle_Scan.set_text_length 1)).toAnimator_base.is_started = false :=
  ⟨by decide, by decide,
   (Scan_stops_on_tick_5T_plus_1 idle_Scan 1 (by decide) (by decide)).2.2.1,
   (Scan_stops_on_tick_5T_plus_1 idle_Scan 1 (by decide) (by decide)).2.2.2.2.2.1⟩

/-! ## Unscramble -/

theorem set_getElem_same (l : List Int) (i : Nat) (hi : i < l.length) : l.set i l[i] = l := by
  apply List.ext_getElem (by simp)
  intro n h1 h2
  by_cases h : i = n
  · subst h
    simp
  · simp [List.getElem_set_of_ne h]

/-- Exchanging two entries of a list by two assignments permutes the list. -/
theorem swap_by_set_perm (l : List Int) (i j : Nat) (hi : i < l.length) (hj : j < l.length) :
    ((l.set i l[j]).set j l[i]).Perm l := by
  by_cases hij : i = j
  · subst hij
    simp [set_getElem_same l i hi]
  · rw [List.perm_iff_count]
    intro c
    have hj2 : j < (l.set i l[j]).length := by simpa using hj
    rw [List.count_set _ _ _ _ hj2, List.count_set _ _ _ _ hi]
    have hget : (l.set i l[j])[j] = l[j] := by
      rw [List.getElem_set_of_ne hij]
    rw [hget]
    have hci : l[i] = c → 0 < l.count c := by
      intro h
      exact List.count_pos_iff.mpr (h ▸ List.getElem_mem hi)
    by_cases h1 : l[i] = c
    · have := hci h1
      by_cases h2 : l[j] = c
      · simp only [h1, h2, beq_self_eq_true, if_true]
        omega
      · simp only [h1, beq_self_eq_true, if_true, beq_iff_eq, h2, if_false]
        omega
    · by_cases h2 : l[j] = c
      · simp only [beq_iff_eq, h1, h2, if_false, if_true]
        omega
      · simp only [beq_iff_eq, h1, h2, if_false]
        omega

theorem to_size_t_natCast (k : Nat) (hk : k < SIZE_MOD) : to_size_t (k : Int) = k := by
  unfold to_size_t
  simp only [SIZE_MOD] at hk
  omega

theorem Unscramble.find_position_some (v : Int) :
    ∀ (l : List Index_and_position) (n i : Nat),
      Unscramble.find_position v l n = some i →
        n ≤ i ∧ ∃ h : i - n < l.length, (l[i - n]).position = v
  | [], n, i, h => by simp [Unscramble.find_position] at h
  | x :: rest, n, i, h => by
    rw [Unscramble.find_position] at h
    by_cases hx : x.position = v
    · simp only [hx, if_true, Option.some.injEq] at h
      subst h
      simp [hx]
    · simp only [hx, if_false] at h
      obtain ⟨h1, h2, h3⟩ := Unscramble.find_position_some v rest (n + 1) i h
      refine ⟨by omega, by simp; omega, ?_⟩
      have hin : i - n = (i - (n + 1)) + 1 := by omega
      simp only [hin, List.getElem_cons_succ]
      exact h3

theorem Unscramble.find_position_of_mem (v : Int) :
    ∀ (l : List Index_and_position) (n : Nat),
      (∃ x ∈ l, x.position = v) → ∃ i, Unscramble.find_position v l n = some i
  | [], n, h => by
    obtain ⟨x, hx, _⟩ := h
    cases hx
  | x :: rest, n, h => by
    rw [Unscramble.find_position]
    by_cases hx : x.position = v
    · exact ⟨n, by simp [hx]⟩
    · simp only [hx, if_false]
      apply Unscramble.find_position_of_mem v rest (n + 1)
      obtain ⟨y, hy, hyv⟩ := h
      rcases List.mem_cons.mp hy with rfl | hy
      · exact absurd hyv hx
      · exact ⟨y, hy, hyv⟩

theorem Unscramble.swap_position_maps (data : List Index_and_position) (i j : Nat)
    (hi : i < data.length) (hj : j < data.length) :
    (Unscramble.swap_position data i j).map Index_and_position.index =
      data.map Index_and_position.index ∧
    (Unscramble.swap_position data i j).map Index_and_position.position =
      ((data.map Index_and_position.position).set i (data[j]).position).set j
        (data[i]).position := by
  simp only [Unscramble.swap_position, List.getElem?_eq_getElem hi,
    List.getElem?_eq_getElem hj, List.map_set]
  refine ⟨?_, trivial⟩
  apply List.ext_getElem (by simp)
  intro n h1 h2
  simp only [List.getElem_set, List.getElem_map]
  split_ifs with ha hb
  · subst ha
    rfl
  · subst hb
    rfl
  · rfl

theorem Unscramble.for_loop_fixes (T k : Nat) (data : List Index_and_position)
    (hk : k < T) (hT : T ≤ INT_MAX)
    (hidx : data.map Index_and_position.index = List.range T)
    (hperm : (data.map Index_and_position.position).Perm ((List.range T).map Int.ofNat))
    (hfix : ∀ i, i < k → (data.map Index_and_position.position)[i]? = some (i : Int)) :
    (Unscramble.for_loop data (k : Int)).map Index_and_position.index = List.range T ∧
    ((Unscramble.for_loop data (k : Int)).map Index_and_position.position).Perm
      ((List.range T).map Int.ofNat) ∧
    ∀ i, i < k + 1 →
      ((Unscramble.for_loop data (k : Int)).map Index_and_position.position)[i]? =
        some (i : Int) := by
  have hlen : data.length = T := by
    have := congrArg List.length hidx
    simpa using this
  have hks : to_size_t (k : Int) = k := to_size_t_natCast k (by simp only [SIZE_MOD, INT_MAX] at *; omega)
  -- the value `k` occurs among the positions, at a slot not yet fixed
  have hmem : (k : Int) ∈ data.map Index_and_position.position := by
    rw [hperm.mem_iff]
    simp only [List.mem_map, List.mem_range]
    exact ⟨k, hk, rfl⟩
  obtain ⟨j, hj⟩ := List.mem_iff_getElem?.mp hmem
  have hjk : k ≤ j := by
    by_contra hlt
    have := hfix j (by omega)
    rw [hj] at this
    simp only [Option.some.injEq, Nat.cast_inj] at this
    omega
  obtain ⟨hjT, hjv⟩ := List.getElem?_eq_some.mp hj
  simp only [List.length_map] at hjT
  simp only [List.getElem_map] at hjv
  have hex : ∃ x ∈ data.drop k, x.position = (k : Int) := by
    refine ⟨data[j], ?_, hjv⟩
    rw [List.mem_iff_getElem]
    refine ⟨j - k, by simp; omega, ?_⟩
    simp only [List.getElem_drop]
    congr 1
    omega
  obtain ⟨i, hi⟩ := Unscramble.find_position_of_mem (k : Int) (data.drop k) k hex
  obtain ⟨hki, hil, hiv⟩ := Unscramble.find_position_some (k : Int) (data.drop k) k i hi
  simp only [List.length_drop] at hil
  have hiT : i < data.length := by omega
  have hkT : k < data.length := by omega
  have hiv2 : (data[i]).position = (k : Int) := by
    simp only [List.getElem_drop] at hiv
    have : k + (i - k) = i := by omega
    simpa [this] using hiv
  simp only [Unscramble.for_loop, hks, hi]
  obtain ⟨hm1, hm2⟩ := Unscramble.swap_position_maps data i k hiT hkT
  refine ⟨hm1.trans hidx, ?_, ?_⟩
  · rw [hm2]
    have hsw := swap_by_set_perm (data.map Index_and_position.position) i k
      (by simpa using hiT) (by simpa using hkT)
    simp only [List.getElem_map] at hsw
    exact hsw.trans hperm
  · intro n hn
    rw [hm2, hiv2]
    by_cases hnk : n = k
    · subst hnk
      rw [List.getElem?_set_self (by simpa using hkT)]
    · rw [List.getElem?_set_ne (Ne.symm hnk), List.getElem?_set_ne (by omega)]
      exact hfix n (by omega)

/-- One tick of `Unscramble` before the table is sorted fixes one more slot and
emits nothing. -/
theorem Unscramble.operator_call_fixes (T k : Nat) (s : Unscramble) (hk : k < T)
    (hT : T ≤ INT_MAX) (h : Unscramble.fixed_up_to T k s) :
    Unscramble.fixed_up_to T (k + 1) s.operator_call.1 ∧
    s.operator_call.1.started_ = s.started_ ∧ s.operator_call.1.emitted_ = s.emitted_ := by
  obtain ⟨htl, hst, hidx, hperm, hfix⟩ := h
  have hks : to_size_t (k : Int) = k := to_size_t_natCast k (by simp only [SIZE_MOD, INT_MAX] at *; omega)
  have hne : ¬ (to_size_t s.sorted_to_ = s.text_length_) := by
    rw [hst, hks, htl]
    omega
  obtain ⟨h1, h2, h3⟩ := Unscramble.for_loop_fixes T k s.data_ hk hT hidx hperm hfix
  have hs : s.operator_call.1 =
      { s with data_ := Unscramble.for_loop s.data_ s.sorted_to_,
               sorted_to_ := wrap_int (s.sorted_to_ + 1) } := by
    simp only [Unscramble.operator_call, hne, if_false]
  rw [hs, hst]
  refine ⟨⟨htl, ?_, h1, h2, h3⟩, rfl, rfl⟩
  show wrap_int ((k : Int) + 1) = ((k + 1 : Nat) : Int)
  simp only [INT_MAX] at hT
  unfold wrap_int
  omega

/-- The state of an `Unscramble` right after `set_text_length`. -/
theorem Unscramble.set_text_length_fixed (shuffle : List Int → List Int)
    (hshuffle : ∀ l, (shuffle l).Perm l) (s0 : Unscramble) (T : Nat) (hT : 0 < T) :
    Unscramble.fixed_up_to T 0 (Unscramble.set_text_length shuffle s0 T) ∧
    (Unscramble.set_text_length shuffle s0 T).started_ = true ∧
    (Unscramble.set_text_length shuffle s0 T).emitted_ = s0.emitted_ ++ [Signal.start] := by
  have hT0 : T ≠ 0 := by omega
  have hlen : (shuffle ((List.range T).map Int.ofNat)).length = T := by
    rw [(hshuffle _).length_eq]
    simp
  have hs : Unscramble.set_text_length shuffle s0 T =
      { toAnimator_base :=
          { data_ := Unscramble.zip (List.range T) (shuffle ((List.range T).map Int.ofNat)),
            max_length_ := s0.max_length_, text_length_ := T, started_ := true,
            emitted_ := s0.emitted_ ++ [Signal.start] },
        sorted_to_ := 0 } := by
    simp [Unscramble.set_text_length, Animator_base.set_text_length, hT0,
      Unscramble.initialize_data, Animator_base.start]
  rw [hs]
  refine ⟨⟨rfl, rfl, ?_, ?_, ?_⟩, rfl, rfl⟩
  · simp only [Unscramble.indices, Unscramble.zip]
    rw [List.map_zipWith]
    apply List.ext_getElem (by simp [hlen])
    intro n h1 h2
    simp
  · simp only [Unscramble.positions, Unscramble.zip]
    rw [List.map_zipWith]
    have : List.zipWith (fun (x : Nat) (y : Int) => (Index_and_position.mk x y).position)
        (List.range T) (shuffle ((List.range T).map Int.ofNat)) =
        shuffle ((List.range T).map Int.ofNat) := by
      apply List.ext_getElem (by simp [hlen])
      intro n h1 h2
      simp
    rw [this]
    exact hshuffle _
  · intro i hi
    omega

theorem Unscramble.ticks_fixed (shuffle : List Int → List Int)
    (hshuffle : ∀ l, (shuffle l).Perm l) (s0 : Unscramble) (T : Nat) (hT : 0 < T)
    (hint : T ≤ INT_MAX) (k : Nat) (hk : k ≤ T) :
    Unscramble.fixed_up_to T k (Unscramble.ticks k (Unscramble.set_text_length shuffle s0 T)) ∧
    (Unscramble.ticks k (Unscramble.set_text_length shuffle s0 T)).started_ = true ∧
    (Unscramble.ticks k (Unscramble.set_text_length shuffle s0 T)).emitted_ =
      s0.emitted_ ++ [Signal.start] := by
  induction k with
  | zero => exact Unscramble.set_text_length_fixed shuffle hshuffle s0 T hT
  | succ k ih =>
    obtain ⟨ih1, ih2, ih3⟩ := ih (by omega)
    obtain ⟨h1, h2, h3⟩ := Unscramble.operator_call_fixes T k _ (by omega) hint ih1
    exact ⟨h1, h2.trans ih2, h3.trans ih3⟩

theorem Unscramble.take_eq_iota_table (T k : Nat) (data : List Index_and_position)
    (hk : k ≤ T) (hidx : data.map Index_and_position.index = List.range T)
    (hfix : ∀ i, i < k → (data.map Index_and_position.position)[i]? = some (i : Int)) :
    data.take k = iota_table k := by
  have hlen : data.length = T := by
    have := congrArg List.length hidx
    simpa using this
  apply List.ext_getElem
  · simp [iota_table_length, hlen, hk]
  · intro n h1 h2
    have hn : n < k := by simpa [iota_table_length] using h2
    have hnT : n < data.length := by omega
    have hi : (data[n]).index = n := by
      have h := congrArg (fun l => l[n]?) hidx
      simp only [List.getElem?_map, List.getElem?_eq_getElem hnT, Option.map_some'] at h
      rw [List.getElem?_range (by omega)] at h
      exact Option.some.inj h
    have hp : (data[n]).position = (n : Int) := by
      have h := hfix n hn
      simp only [List.getElem?_map, List.getElem?_eq_getElem hnT, Option.map_some'] at h
      exact Option.some.inj h
    simp only [List.getElem_take, iota_table, List.getElem_map, List.getElem_range]
    cases hd : data[n] with
    | mk a b =>
      rw [hd] at hi hp
      simp only at hi hp
      rw [hi, hp]

theorem Unscramble.ticks_T_data (shuffle : List Int → List Int)
    (hshuffle : ∀ l, (shuffle l).Perm l) (s0 : Unscramble) (T : Nat) (hT : 0 < T)
    (hint : T ≤ INT_MAX) :
    (Unscramble.ticks T (Unscramble.set_text_length shuffle s0 T)).data_ = iota_table T := by
  obtain ⟨⟨_, _, hidx, _, hfix⟩, _, _⟩ :=
    Unscramble.ticks_fixed shuffle hshuffle s0 T hT hint T (le_refl T)
  have htake := Unscramble.take_eq_iota_table T T _ (le_refl T) hidx hfix
  have hlen := congrArg List.length hidx
  simp only [Unscramble.indices, List.length_map, List.length_range] at hlen
  rw [List.take_of_length_le (by omega)] at htake
  exact htake

/-- C4: for an `Unscramble` initialised by `set_text_length T` with `T > 0`, for
every shuffle of the positions and every `k ≤ T`: after `k` ticks the positions
are still a permutation of `0, ..., T - 1`, the text indices are those set at
initialisation (`0, ..., T - 1` in order), and the first `k` entries have position
equal to index, one more per tick; after exactly `T` ticks the whole table is
`{0,0}, ..., {T-1,T-1}`. -/
theorem Unscramble_fixes_one_per_tick (shuffle : List Int → List Int)
    (hshuffle : ∀ l, (shuffle l).Perm l) (s0 : Unscramble) (T k : Nat) (hT : 0 < T)
    (hint : T ≤ INT_MAX) (hk : k ≤ T) :
    (Unscramble.ticks k (Unscramble.set_text_length shuffle s0 T)).positions.Perm
      ((List.range T).map Int.ofNat) ∧
    (Unscramble.ticks k (Unscramble.set_text_length shuffle s0 T)).indices =
      (Unscramble.set_text_length shuffle s0 T).indices ∧
    (Unscramble.ticks k (Unscramble.set_text_length shuffle s0 T)).indices = List.range T ∧
    (Unscramble.ticks k (Unscramble.set_text_length shuffle s0 T)).data_.take k =
      iota_table k ∧
    (k = T →
      (Unscramble.ticks k (Unscramble.set_text_length shuffle s0 T)).data_ = iota_table T) := by
  obtain ⟨⟨_, _, hidx0, _, _⟩, _, _⟩ :=
    Unscramble.set_text_length_fixed shuffle hshuffle s0 T hT
  obtain ⟨⟨_, _, hidx, hperm, hfix⟩, _, _⟩ :=
    Unscramble.ticks_fixed shuffle hshuffle s0 T hT hint k hk
  have htake := Unscramble.take_eq_iota_table T k _ hk hidx hfix
  refine ⟨hperm, hidx.trans hidx0.symm, hidx, htake, ?_⟩
  intro hkT
  subst hkT
  exact Unscramble.ticks_T_data shuffle hshuffle s0 k hT hint

/-- An `Unscramble` with text length 3 whose shuffle reverses the positions has
its first two entries fixed after two ticks. -/
theorem Unscramble_fixes_one_per_tick_witness :
    0 < 3 ∧ 3 ≤ INT_MAX ∧ 2 ≤ 3 ∧
    (Unscramble.ticks 2
      (Unscramble.set_text_length List.reverse idle_Unscramble 3)).data_.take 2 =
      iota_table 2 :=
  ⟨by decide, by decide, by decide,
   (Unscramble_fixes_one_per_tick List.reverse (fun l => List.reverse_perm l)
     idle_Unscramble 3 2 (by decide) (by decide) (by decide)).2.2.2.1⟩

/-- With text length 1, after exactly 1 tick an `Unscramble` is still started and
no `stop` has been emitted. -/
theorem Unscramble_not_stopped_after_T :
    (Unscramble.ticks 1
      (Unscramble.set_text_length id idle_Unscramble 1)).toAnimator_base.is_started = true ∧
    (Unscramble.ticks 1 (Unscramble.set_text_length id idle_Unscramble 1)).emitted_ =
      [Signal.start] := by
  decide

/-- C5, amended: for an `Unscramble` initialised by `set_text_length T` with
`T > 0`, none of the first `T` ticks emits `stop`, so after exactly `T` ticks the
animator is still started; tick `T + 1` emits `stop`, after which `is_started` is
false, and leaves the sorted table as it is. -/
theorem Unscramble_stops_on_tick_T_plus_1 (shuffle : List Int → List Int)
    (hshuffle : ∀ l, (shuffle l).Perm l) (s0 : Unscramble) (T : Nat) (hT : 0 < T)
    (hint : T ≤ INT_MAX) :
    (Unscramble.ticks T
      (Unscramble.set_text_length shuffle s0 T)).toAnimator_base.is_started = true ∧
    (Unscramble.ticks T (Unscramble.set_text_length shuffle s0 T)).emitted_ =
      s0.emitted_ ++ [Signal.start] ∧
    (Unscramble.ticks (T + 1)
      (Unscramble.set_text_length shuffle s0 T)).toAnimator_base.is_started = false ∧
    (Unscramble.ticks (T + 1) (Unscramble.set_text_length shuffle s0 T)).emitted_ =
      s0.emitted_ ++ [Signal.start, Signal.stop] ∧
    (Unscramble.ticks (T + 1) (Unscramble.set_text_length shuffle s0 T)).data_ =
      iota_table T := by
  obtain ⟨⟨htl, hst, _, _, _⟩, hstarted, hem⟩ :=
    Unscramble.ticks_fixed shuffle hshuffle s0 T hT hint T (le_refl T)
  have hdata := Unscramble.ticks_T_data shuffle hshuffle s0 T hT hint
  have hks : to_size_t (T : Int) = T :=
    to_size_t_natCast T (by simp only [SIZE_MOD, INT_MAX] at *; omega)
  have hstop : Unscramble.ticks (T + 1) (Unscramble.set_text_length shuffle s0 T) =
      { Unscramble.ticks T (Unscramble.set_text_length shuffle s0 T) with
        toAnimator_base :=
          (Unscramble.ticks T
            (Unscramble.set_text_length shuffle s0 T)).toAnimator_base.stop } := by
    rw [Unscramble.ticks]
    simp only [Unscramble.operator_call, hst, hks, htl, if_true]
  refine ⟨hstarted, hem, ?_, ?_, ?_⟩
  · rw [hstop]
    rfl
  · rw [hstop]
    simp only [Animator_base.stop, hem, List.append_assoc, List.singleton_append]
  · rw [hstop]
    exact hdata

/-- An `Unscramble` with text length 1 is stopped after 2 ticks. -/
theorem Unscramble_stops_on_tick_T_plus_1_witness :
    0 < 1 ∧ 1 ≤ INT_MAX ∧
    (Unscramble.ticks (1 + 1)
      (Unscramble.set_text_length id idle_Unscramble 1)).toAnimator_base.is_started = false :=
  ⟨by decide, by decide,
   (Unscramble_stops_on_tick_T_plus_1 id (fun l => List.Perm.refl l) idle_Unscramble 1
     (by decide) (by decide)).2.2.1⟩

end ox.animator

namespace ox.animator

/-! ## Conditional_scroll -/

theorem Scroll_base.set_text_length_state (s : Scroll_base) (x : Nat) :
    Scroll_base.set_text_length s x =
      { toAnimator_base :=
          { data_ := iota_table x, max_length_ := s.max_length_, text_length_ := x,
            started_ := s.started_, emitted_ := s.emitted_ },
        begin_ := 0, hold_ := 0, hold_length_ := 20 } := by
  simp [Scroll_base.set_text_length, Scroll_base.reset_hold_length,
    Animator_base.set_text_length, Animator_base.initialize_data]

theorem Scroll_base.set_max_length_eq (s : Scroll_base) (x : Nat) :
    Scroll_base.set_max_length s x =
      { toAnimator_base :=
          { data_ := s.data_, max_length_ := x, text_length_ := s.text_length_,
            started_ := s.started_, emitted_ := s.emitted_ },
        begin_ := s.begin_, hold_ := s.hold_, hold_length_ := 20 } := by
  simp [Scroll_base.set_max_length, Scroll_base.reset_hold_length,
    Animator_base.set_max_length]

/-- The three outcomes of the start and stop conditions of `Conditional_scroll` on
a state `s1`. -/
theorem Conditional_scroll.conditions_cases (s1 : Scroll_base) :
    (s1.started_ = false ∧ s1.max_length_ < s1.text_length_ ∧
      Conditional_scroll.start_condition s1 = true) ∨
    (s1.started_ = true ∧ s1.text_length_ ≤ s1.max_length_ ∧
      Conditional_scroll.start_condition s1 = false ∧
      Conditional_scroll.stop_condition s1 = true) ∨
    ((s1.started_ = true ↔ s1.max_length_ < s1.text_length_) ∧
      Conditional_scroll.start_condition s1 = false ∧
      Conditional_scroll.stop_condition s1 = false) := by
  cases hs : s1.started_ <;>
    by_cases hl : s1.max_length_ < s1.text_length_ <;>
    simp [Conditional_scroll.start_condition, Conditional_scroll.stop_condition,
      Animator_base.is_started, hs, hl] <;> omega

theorem Conditional_scroll.react_spec (s1 r : Scroll_base)
    (hr : r = if Conditional_scroll.start_condition s1 then s1.start
      else if Conditional_scroll.stop_condition s1 then Conditional_scroll.stop_and_reset s1
      else s1) :
    (r.toAnimator_base.is_started = true ↔ r.max_length_ < r.text_length_) ∧
    r.text_length_ = s1.text_length_ ∧ r.max_length_ = s1.max_length_ ∧
    r.emitted_ = s1.emitted_ ++
      (if s1.started_ = false ∧ s1.max_length_ < s1.text_length_ then [Signal.start]
       else if s1.started_ = true ∧ s1.text_length_ ≤ s1.max_length_ then [Signal.stop]
       else []) ∧
    (s1.started_ = true → s1.text_length_ ≤ s1.max_length_ →
      r.begin_ = 0 ∧ r.hold_ = 0 ∧ r.data_ = iota_table s1.text_length_) := by
  rcases Conditional_scroll.conditions_cases s1 with
    ⟨h1, h2, h3⟩ | ⟨h1, h2, h3, h4⟩ | ⟨h1, h3, h4⟩
  · rw [h3] at hr
    simp only [if_true] at hr
    subst hr
    refine ⟨?_, rfl, rfl, ?_, ?_⟩
    · simp [Scroll_base.start, Animator_base.start, Animator_base.is_started, h2]
    · simp [Scroll_base.start, Animator_base.start, h1, h2]
    · intro h
      rw [h1] at h
      cases h
  · rw [h3, h4] at hr
    simp only [if_true, Bool.false_eq_true, if_false] at hr
    subst hr
    refine ⟨?_, rfl, rfl, ?_, ?_⟩
    · simp only [Conditional_scroll.stop_and_reset, Animator_base.stop,
        Animator_base.initialize_data, Animator_base.is_started]
      constructor
      · intro h
        cases h
      · intro h
        omega
    · have hn : ¬ (s1.max_length_ < s1.text_length_) := by omega
      simp [Conditional_scroll.stop_and_reset, Animator_base.stop,
        Animator_base.initialize_data, h1, h2, hn]
    · intro _ _
      exact ⟨rfl, rfl, rfl⟩
  · rw [h3, h4] at hr
    simp only [Bool.false_eq_true, if_false] at hr
    subst hr
    refine ⟨h1, rfl, rfl, ?_, ?_⟩
    · by_cases hs : r.started_ = true
      · have hl := h1.mp hs
        have hn : ¬ (r.text_length_ ≤ r.max_length_) := by omega
        simp [hs, hn]
      · have hl : ¬ (r.max_length_ < r.text_length_) := fun h => hs (h1.mpr h)
        simp [hs, hl]
    · intro hs hl
      have := h1.mp hs
      omega

/-- C11: for every prior state and every argument, after a call of
`set_text_length` or of `set_max_length` a `Conditional_scroll` is started if
and only if `text_length > max_length`; the call emits `start` exactly when the
animator was not started and `text_length > max_length` holds after the
assignment, emits `stop` exactly when it was started and
`text_length <= max_length` holds, and emits nothing otherwise; and when it
stops in this way the state is the unscrolled one: `begin_ = 0`, `hold_ = 0`
and table entry `i` equal to `{i, i}`. The text length for which the table is
built (the argument of `set_text_length`, the current text length for
`set_max_length`) is at most `INT_MAX`, so that the `int` positions of the
table do not overflow. -/
theorem Conditional_scroll_started_iff (s : Scroll_base) (x : Nat) :
    (x ≤ INT_MAX →
      ((Conditional_scroll.set_text_length s x).toAnimator_base.is_started = true ↔
        (Conditional_scroll.set_text_length s x).max_length_ <
          (Conditional_scroll.set_text_length s x).text_length_) ∧
      (Conditional_scroll.set_text_length s x).text_length_ = x ∧
      (Conditional_scroll.set_text_length s x).max_length_ = s.max_length_ ∧
      (Conditional_scroll.set_text_length s x).emitted_ = s.emitted_ ++
        (if s.started_ = false ∧ s.max_length_ < x then [Signal.start]
         else if s.started_ = true ∧ x ≤ s.max_length_ then [Signal.stop]
         else []) ∧
      (s.started_ = true → x ≤ s.max_length_ →
        (Conditional_scroll.set_text_length s x).begin_ = 0 ∧
        (Conditional_scroll.set_text_length s x).hold_ = 0 ∧
        (Conditional_scroll.set_text_length s x).data_ = iota_table x)) ∧
    (s.text_length_ ≤ INT_MAX →
      ((Conditional_scroll.set_max_length s x).toAnimator_base.is_started = true ↔
        (Conditional_scroll.set_max_length s x).max_length_ <
          (Conditional_scroll.set_max_length s x).text_length_) ∧
      (Conditional_scroll.set_max_length s x).text_length_ = s.text_length_ ∧
      (Conditional_scroll.set_max_length s x).max_length_ = x ∧
      (Conditional_scroll.set_max_length s x).emitted_ = s.emitted_ ++
        (if s.started_ = false ∧ x < s.text_length_ then [Signal.start]
         else if s.started_ = true ∧ s.text_length_ ≤ x then [Signal.stop]
         else []) ∧
      (s.started_ = true → s.text_length_ ≤ x →
        (Conditional_scroll.set_max_length s x).begin_ = 0 ∧
        (Conditional_scroll.set_max_length s x).hold_ = 0 ∧
        (Conditional_scroll.set_max_length s x).data_ = iota_table s.text_length_)) := by
  constructor
  · intro _
    have h := Conditional_scroll.react_spec (Scroll_base.set_text_length s x)
      (Conditional_scroll.set_text_length s x) rfl
    rw [Scroll_base.set_text_length_state] at h
    exact h
  · intro _
    have h := Conditional_scroll.react_spec (Scroll_base.set_max_length s x)
      (Conditional_scroll.set_max_length s x) rfl
    rw [Scroll_base.set_max_length_eq] at h
    exact h

/-- A `Conditional_scroll` of width 0 given a text of length 2 is started, and it
is stopped again when the width becomes 5. -/
theorem Conditional_scroll_started_iff_witness :
    2 ≤ INT_MAX ∧
    (Conditional_scroll.set_text_length idle_Scroll 2).toAnimator_base.is_started = true ∧
    (Conditional_scroll.set_max_length
      (Conditional_scroll.set_text_length idle_Scroll 2) 5).toAnimator_base.is_started =
      false ∧
    (Conditional_scroll.set_max_length
      (Conditional_scroll.set_text_length idle_Scroll 2) 5).data_ = iota_table 2 :=
  ⟨by decide,
   ((Conditional_scroll_started_iff idle_Scroll 2).1 (by decide)).1.mpr (by decide),
   by decide,
   (((Conditional_scroll_started_iff
       (Conditional_scroll.set_text_length idle_Scroll 2) 5).2 (by decide)).2.2.2.2
     (by decide) (by decide)).2.2⟩

/-! ## Scroll -/

theorem scrolled_table_zero (T : Nat) : scrolled_table T 0 = iota_table T := by
  simp [scrolled_table, iota_table]

theorem scrolled_table_length (T k : Nat) : (scrolled_table T k).length = T := by
  simp [scrolled_table]

theorem decrement_from_scrolled_table (T k : Nat) :
    decrement_from (k + 1) (scrolled_table T k) = scrolled_table T (k + 1) := by
  apply List.ext_getElem?
  intro i
  simp only [decrement_from, scrolled_table]
  by_cases hi : i < T
  · by_cases hk : i < k + 1
    · rw [List.getElem?_append_left (by simp; omega)]
      simp only [List.getElem?_take, hk, if_true, List.getElem?_map,
        List.getElem?_range hi, Option.map_some']
      have h1 : min i k = i := by omega
      have h2 : min i (k + 1) = i := by omega
      rw [h1, h2]
    · rw [List.getElem?_append_right (by simp; omega)]
      simp only [List.length_take, List.length_map, List.length_range, List.getElem?_map,
        List.getElem?_drop]
      have h3 : k + 1 + (i - min (k + 1) T) = i := by omega
      rw [h3, List.getElem?_range hi]
      simp only [Option.map_some', decrement_position, Option.some.injEq,
        Index_and_position.mk.injEq, true_and]
      have h1 : min i k = k := by omega
      have h2 : min i (k + 1) = k + 1 := by omega
      rw [h1, h2]
      push_cast
      ring
  · have h1 : ((List.range T).map (fun i : Nat =>
        ({ index := i, position := (i : Int) - ((min i (k + 1) : Nat) : Int) } :
          Index_and_position)))[i]? = none := by
      simp; omega
    rw [h1]
    simp only [List.getElem?_append, List.getElem?_take, List.getElem?_drop,
      List.length_take, List.length_map, List.length_range, List.getElem?_map]
    rw [if_neg (by omega), List.getElem?_eq_none (by simp; omega)]
    rfl

theorem scrolled_table_indices (T k : Nat) :
    (scrolled_table T k).map Index_and_position.index = List.range T := by
  simp only [scrolled_table, List.map_map]
  have hid : (Index_and_position.index ∘ fun i : Nat =>
      ({ index := i, position := (i : Int) - ((min i k : Nat) : Int) } :
        Index_and_position)) = id := rfl
  rw [hid, List.map_id]

theorem Scroll_base.operator_call_holding (B : Animator_base) (b h : Nat) (hh : h < 20) :
    (Scroll_base.shifted B b h).operator_call.1 = Scroll_base.shifted B b (h + 1) := by
  have h2 : (h + 1) % SIZE_MOD = h + 1 := Nat.mod_eq_of_lt (by simp only [SIZE_MOD]; omega)
  simp [Scroll_base.operator_call, Scroll_base.shifted, hh, h2]

theorem Scroll_base.operator_call_shift (B : Animator_base) (b : Nat)
    (hb : b < B.text_length_) (hsize : B.text_length_ < SIZE_MOD) :
    (Scroll_base.shifted B b 20).operator_call.1 = Scroll_base.shifted B (b + 1) 20 := by
  have h1 : b ≠ B.text_length_ := by omega
  have h2 : (b + 1) % SIZE_MOD = b + 1 := Nat.mod_eq_of_lt (by omega)
  simp [Scroll_base.operator_call, Scroll_base.shifted, h1, h2,
    decrement_from_scrolled_table]

theorem Scroll_base.operator_call_reset (B : Animator_base) :
    (Scroll_base.shifted B B.text_length_ 20).operator_call.1 = Scroll_base.shifted B 0 0 := by
  simp [Scroll_base.operator_call, Scroll_base.shifted, Animator_base.initialize_data,
    scrolled_table_zero]

theorem Scroll_base.ticks_add (n m : Nat) (s : Scroll_base) :
    Scroll_base.ticks (n + m) s = Scroll_base.ticks n (Scroll_base.ticks m s) := by
  induction n with
  | zero => simp [Scroll_base.ticks]
  | succ n ih =>
    rw [Nat.add_right_comm, Scroll_base.ticks, ih]
    rfl

theorem Scroll_base.ticks_hold (B : Animator_base) (k : Nat) (hk : k ≤ 20) :
    Scroll_base.ticks k (Scroll_base.shifted B 0 0) = Scroll_base.shifted B 0 k := by
  induction k with
  | zero => rfl
  | succ k ih => rw [Scroll_base.ticks, ih (by omega), Scroll_base.operator_call_holding B 0 k (by omega)]

theorem Scroll_base.ticks_shift (B : Animator_base) (hsize : B.text_length_ < SIZE_MOD)
    (k : Nat) (hk : k ≤ B.text_length_) :
    Scroll_base.ticks (20 + k) (Scroll_base.shifted B 0 0) = Scroll_base.shifted B k 20 := by
  induction k with
  | zero => exact Scroll_base.ticks_hold B 20 (le_refl 20)
  | succ k ih =>
    rw [← Nat.add_assoc, Scroll_base.ticks, ih (by omega),
      Scroll_base.operator_call_shift B k (by omega) hsize]

theorem Scroll_base.ticks_period (B : Animator_base) (hsize : B.text_length_ < SIZE_MOD) :
    Scroll_base.ticks (20 + B.text_length_ + 1) (Scroll_base.shifted B 0 0) =
      Scroll_base.shifted B 0 0 := by
  rw [Scroll_base.ticks, Scroll_base.ticks_shift B hsize _ (le_refl _),
    Scroll_base.operator_call_reset]

theorem Scroll_base.operator_call_signals (s : Scroll_base) :
    s.operator_call.1.emitted_ = s.emitted_ ∧ s.operator_call.1.started_ = s.started_ ∧
    s.operator_call.1.text_length_ = s.text_length_ ∧
    s.operator_call.1.max_length_ = s.max_length_ := by
  simp only [Scroll_base.operator_call]
  split_ifs <;> exact ⟨rfl, rfl, rfl, rfl⟩

theorem Scroll_base.ticks_signals (n : Nat) (s : Scroll_base) :
    (Scroll_base.ticks n s).emitted_ = s.emitted_ ∧
    (Scroll_base.ticks n s).started_ = s.started_ := by
  induction n with
  | zero => exact ⟨rfl, rfl⟩
  | succ n ih =>
    obtain ⟨h1, h2, _, _⟩ := Scroll_base.operator_call_signals (Scroll_base.ticks n s)
    rw [Scroll_base.ticks]
    exact ⟨h1.trans ih.1, h2.trans ih.2⟩

theorem Scroll_base.range_of_tick_state (k : Nat) (hk : 1 ≤ k) (s : Scroll_base) :
    Scroll_base.range_of_tick k s =
      { begin_ := (Scroll_base.ticks k s).begin_,
        end_ := (Scroll_base.ticks k s).data_.length } := by
  obtain ⟨j, rfl⟩ : ∃ j, k = j + 1 := ⟨k - 1, by omega⟩
  rfl

theorem Scroll.set_text_length_shifted (s0 : Scroll_base) (T : Nat) (hT : 0 < T) :
    Scroll.set_text_length s0 T =
      Scroll_base.shifted (s0.toAnimator_base.set_text_length T).start 0 0 := by
  have hT0 : T ≠ 0 := by omega
  simp [Scroll.set_text_length, Scroll_base.set_text_length_state, hT0, Scroll_base.start,
    Scroll_base.shifted, Animator_base.start, Animator_base.set_text_length,
    scrolled_table_zero]

/-- C12: a `Scroll` initialised by `set_text_length T` with `T > 0` (and
`T ≤ INT_MAX`, so that the `int` positions of the table do not overflow) is an
endless marquee loop. With `H` its hold length (which is 20): ticks `1, ..., H` return
the full range `[0, T)` of the unchanged table; tick `H + k`, for `1 ≤ k ≤ T`,
returns the range `[k, T)`, whose entries have the text indices `k, ..., T - 1`
(empty at `k = T`); tick `H + T + 1` restores exactly the state after
`set_text_length` (`begin_ = 0`, `hold_ = 0`, table entry `i` equal to `{i, i}`),
so the states repeat with period `H + T + 1`; and no tick emits a signal, so
`stop` is never emitted and the animator stays started. -/
theorem Scroll_marquee_loop (s0 s : Scroll_base) (T : Nat) (hT : 0 < T)
    (hint : T ≤ INT_MAX) (hs : s = Scroll.set_text_length s0 T) :
    (s.begin_ = 0 ∧ s.hold_ = 0 ∧ s.data_ = iota_table T ∧ s.hold_length_ = 20) ∧
    (∀ k, 1 ≤ k → k ≤ s.hold_length_ →
      Scroll_base.range_of_tick k s = { begin_ := 0, end_ := T } ∧
      (Scroll_base.ticks k s).data_ = iota_table T) ∧
    (∀ k, 1 ≤ k → k ≤ T →
      Scroll_base.range_of_tick (s.hold_length_ + k) s = { begin_ := k, end_ := T } ∧
      ((Scroll_base.range_of_tick (s.hold_length_ + k) s).entries
        (Scroll_base.ticks (s.hold_length_ + k) s).data_).map Index_and_position.index =
        (List.range T).drop k) ∧
    Scroll_base.ticks (s.hold_length_ + T + 1) s = s ∧
    (∀ n, Scroll_base.ticks (n + (s.hold_length_ + T + 1)) s = Scroll_base.ticks n s) ∧
    (∀ n, (Scroll_base.ticks n s).emitted_ = s.emitted_ ∧
      (Scroll_base.ticks n s).toAnimator_base.is_started = true) := by
  have hsize : T < SIZE_MOD := by
    simp only [SIZE_MOD, INT_MAX] at *
    omega
  have hB : ((s0.toAnimator_base.set_text_length T).start).text_length_ = T := rfl
  rw [Scroll.set_text_length_shifted s0 T hT] at hs
  have hH : s.hold_length_ = 20 := by rw [hs]; rfl
  have hper : Scroll_base.ticks (20 + T + 1) s = s := by
    have := Scroll_base.ticks_period (s0.toAnimator_base.set_text_length T).start
      (by rw [hB]; exact hsize)
    rw [hB] at this
    rw [hs]
    exact this
  rw [hH]
  refine ⟨⟨by rw [hs]; rfl, by rw [hs]; rfl, ?_, rfl⟩, ?_, ?_, hper, ?_, ?_⟩
  · rw [hs]
    exact scrolled_table_zero T
  · intro k hk1 hk2
    rw [Scroll_base.range_of_tick_state k hk1, hs, Scroll_base.ticks_hold _ k hk2]
    simp [Scroll_base.shifted, scrolled_table_length, scrolled_table_zero,
      Animator_base.start, Animator_base.set_text_length, iota_table_length]
  · intro k hk1 hk2
    rw [Scroll_base.range_of_tick_state _ (by omega), hs,
      Scroll_base.ticks_shift _ (by rw [hB]; exact hsize) k (by rw [hB]; exact hk2)]
    simp only [Scroll_base.shifted, hB, scrolled_table_length, IP_range.entries]
    refine ⟨trivial, ?_⟩
    rw [List.take_of_length_le (by simp [scrolled_table_length]), List.map_drop,
      scrolled_table_indices]
  · intro n
    rw [Scroll_base.ticks_add, hper]
  · intro n
    obtain ⟨h1, h2⟩ := Scroll_base.ticks_signals n s
    refine ⟨h1, ?_⟩
    simp only [Animator_base.is_started]
    rw [h2, hs]
    rfl


/-- The loop of a `Scroll` with text length 2: tick `20 + 2 + 1` restores the state
that `set_text_length` produced. -/
theorem Scroll_marquee_loop_witness :
    0 < 2 ∧ 2 ≤ INT_MAX ∧
    Scroll_base.ticks (20 + 2 + 1) (Scroll.set_text_length idle_Scroll 2) =
      Scroll.set_text_length idle_Scroll 2 :=
  ⟨by decide, by decide,
   (Scroll_marquee_loop idle_Scroll (Scroll.set_text_length idle_Scroll 2) 2
     (by decide) (by decide) rfl).2.2.2.1⟩

theorem Scroll_base.set_max_length_shifted (B : Animator_base) (b h M : Nat) :
    Scroll_base.set_max_length (Scroll_base.shifted B b h) M =
      Scroll_base.shifted (B.set_max_length M) b h := by
  simp [Scroll_base.set_max_length_eq, Scroll_base.shifted, Animator_base.set_max_length]

/-- C13: the hold length does not depend on the width. `reset_hold_length` takes the
minimum of `max_length`, `text_length` and 20 and then the maximum of that and 20,
which is 20 for every text length and every width; so for any two widths `M1`
and `M2` the hold lengths are equal, and after either width is set on a freshly
initialised `Scroll` with `T > 0` the window has not shifted after 20 ticks and
shifts for the first time on tick 21. -/
theorem Scroll_hold_length_constant (s : Scroll_base) (T M1 M2 : Nat) :
    s.reset_hold_length.hold_length_ = 20 ∧
    (Scroll_base.set_max_length (Scroll.set_text_length s T) M1).hold_length_ =
      (Scroll_base.set_max_length (Scroll.set_text_length s T) M2).hold_length_ ∧
    (Scroll.set_text_length (Scroll_base.set_max_length s M1) T).hold_length_ =
      (Scroll.set_text_length (Scroll_base.set_max_length s M2) T).hold_length_ ∧
    (0 < T → T < SIZE_MOD → ∀ M,
      (Scroll_base.ticks 20
        (Scroll_base.set_max_length (Scroll.set_text_length s T) M)).begin_ = 0 ∧
      (Scroll_base.ticks 21
        (Scroll_base.set_max_length (Scroll.set_text_length s T) M)).begin_ = 1) := by
  refine ⟨?_, ?_, ?_, ?_⟩
  · simp [Scroll_base.reset_hold_length]
  · rw [Scroll_base.set_max_length_eq, Scroll_base.set_max_length_eq]
  · simp only [Scroll.set_text_length, Scroll_base.set_text_length_state]
    split_ifs <;> rfl
  · intro hT hsize M
    rw [Scroll.set_text_length_shifted s T hT, Scroll_base.set_max_length_shifted]
    have hB : (((s.toAnimator_base.set_text_length T).start).set_max_length M).text_length_
        = T := rfl
    constructor
    · rw [Scroll_base.ticks_hold _ 20 (le_refl 20)]
      rfl
    · rw [Scroll_base.ticks_shift _ (by rw [hB]; exact hsize) 1 (by rw [hB]; omega)]
      rfl

/-- The hold of a `Scroll` with text length 5 at the widths 3 and 100. -/
theorem Scroll_hold_length_constant_witness :
    0 < 5 ∧ 5 < SIZE_MOD ∧
    (Scroll_base.set_max_length (Scroll.set_text_length idle_Scroll 5) 3).hold_length_ = 20 ∧
    (Scroll_base.set_max_length (Scroll.set_text_length idle_Scroll 5) 100).hold_length_ = 20 ∧
    (Scroll_base.ticks 21
      (Scroll_base.set_max_length (Scroll.set_text_length idle_Scroll 5) 3)).begin_ = 1 ∧
    (Scroll_base.ticks 21
      (Scroll_base.set_max_length (Scroll.set_text_length idle_Scroll 5) 100)).begin_ = 1 :=
  ⟨by decide, by decide, by decide, by decide,
   ((Scroll_hold_length_constant idle_Scroll 5 3 100).2.2.2 (by decide) (by decide) 3).2,
   ((Scroll_hold_length_constant idle_Scroll 5 3 100).2.2.2 (by decide) (by decide) 100).2⟩

/-- A `Scroll` whose window has shifted once keeps its shifted table and its
counters when the width is set; so does a started `Conditional_scroll` whose
text is still longer than the new width. -/
theorem set_max_length_keeps_scrolled_state :
    ((Scroll_base.set_max_length
        (Scroll_base.ticks 21 (Scroll.set_text_length idle_Scroll 2)) 5).begin_ = 1 ∧
      (Scroll_base.set_max_length
        (Scroll_base.ticks 21 (Scroll.set_text_length idle_Scroll 2)) 5).hold_ = 20 ∧
      (Scroll_base.set_max_length
        (Scroll_base.ticks 21 (Scroll.set_text_length idle_Scroll 2)) 5).data_ =
        [{ index := 0, position := 0 }, { index := 1, position := 0 }] ∧
      iota_table 2 = [{ index := 0, position := 0 }, { index := 1, position := 1 }]) ∧
    ((Conditional_scroll.set_max_length
        (Scroll_base.ticks 21 (Conditional_scroll.set_text_length idle_Scroll 2)) 1).begin_ = 1 ∧
      (Conditional_scroll.set_max_length
        (Scroll_base.ticks 21 (Conditional_scroll.set_text_length idle_Scroll 2)) 1).hold_ = 20 ∧
      (Conditional_scroll.set_max_length
        (Scroll_base.ticks 21 (Conditional_scroll.set_text_length idle_Scroll 2)) 1).data_ =
        [{ index := 0, position := 0 }, { index := 1, position := 0 }]) := by
  decide

/-- C14, amended: on a change of `max_length` the Scroll-family animators store the
new value and recompute the hold length (the heuristic of `reset_hold_length`
at the new width, which is 20). `Scroll` (through
`Scroll_base::set_max_length`) leaves the table and the counters `begin_` and
`hold_` as they are. `Conditional_scroll` reinitialises them (table entry `i`
equal to `{i, i}` for `i < text_length`, `begin_ = 0`, `hold_ = 0`; the text
length being at most `INT_MAX`, so that the `int` positions do not overflow)
exactly when the change stops it, that is when it was started and
`text_length <= x`, and leaves them as they are otherwise. -/
theorem set_max_length_table (s : Scroll_base) (x : Nat) :
    ((Scroll_base.set_max_length s x).max_length_ = x ∧
      (Scroll_base.set_max_length s x).hold_length_ =
        max (min (min x s.text_length_) 20) 20 ∧
      (Scroll_base.set_max_length s x).data_ = s.data_ ∧
      (Scroll_base.set_max_length s x).begin_ = s.begin_ ∧
      (Scroll_base.set_max_length s x).hold_ = s.hold_) ∧
    ((Conditional_scroll.set_max_length s x).max_length_ = x ∧
      (Conditional_scroll.set_max_length s x).hold_length_ =
        max (min (min x s.text_length_) 20) 20) ∧
    (s.started_ = true ∧ s.text_length_ ≤ x → s.text_length_ ≤ INT_MAX →
      (Conditional_scroll.set_max_length s x).data_ = iota_table s.text_length_ ∧
      (Conditional_scroll.set_max_length s x).begin_ = 0 ∧
      (Conditional_scroll.set_max_length s x).hold_ = 0) ∧
    (¬ (s.started_ = true ∧ s.text_length_ ≤ x) →
      (Conditional_scroll.set_max_length s x).data_ = s.data_ ∧
      (Conditional_scroll.set_max_length s x).begin_ = s.begin_ ∧
      (Conditional_scroll.set_max_length s x).hold_ = s.hold_) := by
  have hdef : Conditional_scroll.set_max_length s x =
      if Conditional_scroll.start_condition (Scroll_base.set_max_length s x) then
        (Scroll_base.set_max_length s x).start
      else if Conditional_scroll.stop_condition (Scroll_base.set_max_length s x) then
        Conditional_scroll.stop_and_reset (Scroll_base.set_max_length s x)
      else Scroll_base.set_max_length s x := rfl
  have hcases := Conditional_scroll.conditions_cases (Scroll_base.set_max_length s x)
  have hst : (Scroll_base.set_max_length s x).started_ = s.started_ := by
    rw [Scroll_base.set_max_length_eq]
  have htl : (Scroll_base.set_max_length s x).text_length_ = s.text_length_ := by
    rw [Scroll_base.set_max_length_eq]
  have hml : (Scroll_base.set_max_length s x).max_length_ = x := by
    rw [Scroll_base.set_max_length_eq]
  rw [hst, htl, hml] at hcases
  have hbase : (Scroll_base.set_max_length s x).max_length_ = x ∧
      (Scroll_base.set_max_length s x).data_ = s.data_ ∧
      (Scroll_base.set_max_length s x).begin_ = s.begin_ ∧
      (Scroll_base.set_max_length s x).hold_ = s.hold_ := by
    rw [Scroll_base.set_max_length_eq]
    exact ⟨rfl, rfl, rfl, rfl⟩
  have hhold : (Scroll_base.set_max_length s x).hold_length_ =
      max (min (min x s.text_length_) 20) 20 := rfl
  obtain ⟨hb1, hb2, hb3, hb4⟩ := hbase
  refine ⟨⟨hb1, hhold, hb2, hb3, hb4⟩, ⟨?_, ?_⟩, ?_, ?_⟩
  · rw [hdef]
    split_ifs
    · exact hb1
    · exact hb1
    · exact hb1
  · rw [hdef]
    split_ifs
    · exact hhold
    · exact hhold
    · exact hhold
  · rintro ⟨hs, hl⟩ _
    rcases hcases with ⟨h1, _⟩ | ⟨_, _, h3, h4⟩ | ⟨h1, _⟩
    · rw [hs] at h1
      cases h1
    · rw [hdef, h3, h4]
      simp only [Bool.false_eq_true, if_false, if_true]
      exact ⟨congrArg iota_table htl, rfl, rfl⟩
    · have := h1.mp hs
      omega
  · intro hn
    rcases hcases with ⟨_, _, h3⟩ | ⟨h1, h2, _⟩ | ⟨_, h3, h4⟩
    · rw [hdef, h3]
      simp only [if_true]
      exact ⟨hb2, hb3, hb4⟩
    · exact absurd ⟨h1, h2⟩ hn
    · rw [hdef, h3, h4]
      simp only [Bool.false_eq_true, if_false]
      exact ⟨hb2, hb3, hb4⟩

/-- A started `Conditional_scroll` with a text of length 2 that has shifted once is
reinitialised when the width becomes 5, and its hold length is recomputed. -/
theorem set_max_length_table_witness :
    2 ≤ INT_MAX ∧
    (Conditional_scroll.set_max_length
      (Scroll_base.ticks 21 (Conditional_scroll.set_text_length idle_Scroll 2)) 5).data_ =
      iota_table 2 ∧
    (Conditional_scroll.set_max_length
      (Scroll_base.ticks 21 (Conditional_scroll.set_text_length idle_Scroll 2))
      5).hold_length_ = max (min (min 5 2) 20) 20 :=
  ⟨by decide,
   ((set_max_length_table
      (Scroll_base.ticks 21 (Conditional_scroll.set_text_length idle_Scroll 2)) 5).2.2.1
     ⟨by decide, by decide⟩ (by decide)).1,
   (set_max_length_table
      (Scroll_base.ticks 21 (Conditional_scroll.set_text_length idle_Scroll 2)) 5).2.1.2⟩

/-! ## The table invariant -/

theorem iota_table_indices (n : Nat) :
    (iota_table n).map Index_and_position.index = List.range n := by
  simp only [iota_table, List.map_map]
  have hid : (Index_and_position.index ∘ fun i : Nat =>
      ({ index := i, position := (i : Int) } : Index_and_position)) = id := rfl
  rw [hid, List.map_id]

theorem Animator_base.table_valid_initialize_data (a : Animator_base) :
    a.initialize_data.table_valid := by
  simp only [Animator_base.table_valid, Animator_base.initialize_data, iota_table_indices]
  exact List.Perm.refl _

theorem Animator_base.table_valid_or_stale_of_valid {a : Animator_base}
    (h : a.table_valid) : a.table_valid_or_stale := by
  have hlen : a.data_.length = a.text_length_ := by
    have := h.length_eq
    simpa using this
  refine ⟨?_, Or.inl hlen.symm⟩
  rw [hlen]
  exact h

/-- A state with the same table and text length, or the same table and text length
zero, inherits the weaker invariant. -/
theorem Animator_base.table_valid_or_stale_of_eq {a b : Animator_base}
    (h : a.table_valid_or_stale) (hd : b.data_ = a.data_)
    (ht : b.text_length_ = a.text_length_ ∨ b.text_length_ = 0) :
    b.table_valid_or_stale := by
  obtain ⟨h1, h2⟩ := h
  refine ⟨by rw [hd]; exact h1, ?_⟩
  rw [hd]
  rcases ht with ht | ht
  · rw [ht]
    exact h2
  · exact Or.inr ht

theorem decrement_from_indices (b : Nat) (data : List Index_and_position) :
    (decrement_from b data).map Index_and_position.index =
      data.map Index_and_position.index := by
  simp only [decrement_from, List.map_append, List.map_map]
  have hid : (Index_and_position.index ∘ decrement_position) = Index_and_position.index := rfl
  rw [hid, ← List.map_append, List.take_append_drop]

theorem Unscramble.swap_position_indices (data : List Index_and_position) (i j : Nat) :
    (Unscramble.swap_position data i j).map Index_and_position.index =
      data.map Index_and_position.index := by
  by_cases hi : i < data.length
  · by_cases hj : j < data.length
    · exact (Unscramble.swap_position_maps data i j hi hj).1
    · simp [Unscramble.swap_position, List.getElem?_eq_none (Nat.le_of_not_lt hj)]
  · simp [Unscramble.swap_position, List.getElem?_eq_none (Nat.le_of_not_lt hi)]

theorem Unscramble.for_loop_indices (data : List Index_and_position) (sorted_to : Int) :
    (Unscramble.for_loop data sorted_to).map Index_and_position.index =
      data.map Index_and_position.index := by
  simp only [Unscramble.for_loop]
  split
  · exact Unscramble.swap_position_indices _ _ _
  · rfl

theorem Unscramble.for_loop_length (data : List Index_and_position) (sorted_to : Int) :
    (Unscramble.for_loop data sorted_to).length = data.length := by
  have := congrArg List.length (Unscramble.for_loop_indices data sorted_to)
  simpa using this

/-- The counter of `Unscramble` wraps at `INT_MAX`: with text length 0, a tick on
the counter value `INT_MAX` leaves `INT_MIN`. -/
theorem Unscramble.operator_call_wraps :
    (Unscramble.operator_call
      { toAnimator_base := idle_base, sorted_to_ := 2147483647 }).1.sorted_to_ =
      -2147483648 := by
  decide

/-- The steps of `Scroll` keep the table valid for the text length. -/
theorem Scroll_base.table_valid_operator_call (s : Scroll_base)
    (h : s.toAnimator_base.table_valid) : s.operator_call.1.toAnimator_base.table_valid := by
  simp only [Scroll_base.operator_call]
  split_ifs
  · exact h
  · exact Animator_base.table_valid_initialize_data _
  · simp only [Animator_base.table_valid, decrement_from_indices]
    exact h

theorem Scroll_base.table_valid_set_text_length (s : Scroll_base) (x : Nat) :
    (Scroll_base.set_text_length s x).toAnimator_base.table_valid := by
  rw [Scroll_base.set_text_length_state]
  simp only [Animator_base.table_valid, iota_table_indices]
  exact List.Perm.refl _

theorem Scroll.table_valid_step {s t : Scroll_base} (hstep : Scroll.step s t)
    (h : s.toAnimator_base.table_valid) : t.toAnimator_base.table_valid := by
  rcases hstep with ⟨x, rfl⟩ | ⟨x, rfl⟩ | rfl
  · have := Scroll_base.table_valid_set_text_length s x
    simp only [Scroll.set_text_length]
    split_ifs
    · exact this
    · exact this
  · rw [Scroll_base.set_max_length_eq]
    exact h
  · exact Scroll_base.table_valid_operator_call s h

theorem Conditional_scroll.table_valid_react (s1 : Scroll_base)
    (h : s1.toAnimator_base.table_valid) :
    (if Conditional_scroll.start_condition s1 then s1.start
      else if Conditional_scroll.stop_condition s1 then Conditional_scroll.stop_and_reset s1
      else s1).toAnimator_base.table_valid := by
  split_ifs
  · exact h
  · exact Animator_base.table_valid_initialize_data _
  · exact h

theorem Conditional_scroll.table_valid_any_step {s t : Scroll_base}
    (hstep : Conditional_scroll.step s t)
    (h : s.toAnimator_base.table_valid) : t.toAnimator_base.table_valid := by
  rcases hstep with ⟨x, rfl⟩ | ⟨x, rfl⟩ | rfl
  · exact Conditional_scroll.table_valid_react _
      (Scroll_base.table_valid_set_text_length s x)
  · apply Conditional_scroll.table_valid_react
    rw [Scroll_base.set_max_length_eq]
    exact h
  · exact Scroll_base.table_valid_operator_call s h

theorem Scan.table_step {s t : Scan} (hstep : Scan.step s t)
    (h : s.toAnimator_base.table_valid_or_stale) :
    t.toAnimator_base.table_valid_or_stale := by
  rcases hstep with ⟨x, rfl⟩ | ⟨x, rfl⟩ | rfl
  · by_cases hx : x = 0
    · subst hx
      exact Animator_base.table_valid_or_stale_of_eq h rfl (Or.inr rfl)
    · simp only [Scan.set_text_length, Animator_base.set_text_length, hx, if_false]
      exact Animator_base.table_valid_or_stale_of_valid
        (Animator_base.table_valid_initialize_data _)
  · exact Animator_base.table_valid_or_stale_of_eq h rfl (Or.inl rfl)
  · apply Animator_base.table_valid_or_stale_of_eq h
    · simp only [Scan.operator_call]
      split_ifs <;> rfl
    · left
      simp only [Scan.operator_call]
      split_ifs <;> rfl

theorem Persistent_scan.table_step_reveal {s t : Persistent_scan} (hstep : Persistent_scan.step s t)
    (h : s.toAnimator_base.table_valid_or_stale) :
    t.toAnimator_base.table_valid_or_stale := by
  rcases hstep with ⟨x, rfl⟩ | ⟨x, rfl⟩ | rfl
  · by_cases hx : x = 0
    · subst hx
      exact Animator_base.table_valid_or_stale_of_eq h rfl (Or.inr rfl)
    · simp only [Persistent_scan.set_text_length, Animator_base.set_text_length, hx, if_false]
      exact Animator_base.table_valid_or_stale_of_valid
        (Animator_base.table_valid_initialize_data _)
  · exact Animator_base.table_valid_or_stale_of_eq h rfl (Or.inl rfl)
  · apply Animator_base.table_valid_or_stale_of_eq h
    · simp only [Persistent_scan.operator_call]
      split_ifs <;> rfl
    · left
      simp only [Persistent_scan.operator_call]
      split_ifs <;> rfl

theorem Random.table_valid_after_shuffle
    (shuffle : List Index_and_position → List Index_and_position)
    (hshuffle : ∀ l, (shuffle l).Perm l) (s : Random) (x : Nat) (hx : x ≠ 0) :
    (Random.set_text_length shuffle s x).toAnimator_base.table_valid := by
  simp only [Random.set_text_length, Animator_base.set_text_length, hx, if_false,
    Animator_base.table_valid, Animator_base.start, Animator_base.initialize_data]
  exact ((hshuffle _).map _).trans (by rw [iota_table_indices])

theorem Random.table_step_shuffled {s t : Random} (hstep : Random.step s t)
    (h : s.toAnimator_base.table_valid_or_stale) :
    t.toAnimator_base.table_valid_or_stale := by
  rcases hstep with ⟨x, shuffle, hshuffle, rfl⟩ | ⟨x, rfl⟩ | rfl
  · by_cases hx : x = 0
    · subst hx
      exact Animator_base.table_valid_or_stale_of_eq h rfl (Or.inr rfl)
    · exact Animator_base.table_valid_or_stale_of_valid
        (Random.table_valid_after_shuffle shuffle hshuffle s x hx)
  · exact Animator_base.table_valid_or_stale_of_eq h rfl (Or.inl rfl)
  · apply Animator_base.table_valid_or_stale_of_eq h
    · simp only [Random.operator_call]
      split_ifs <;> rfl
    · left
      simp only [Random.operator_call]
      split_ifs <;> rfl

theorem Unscramble.table_valid_after_zip (shuffle : List Int → List Int)
    (hshuffle : ∀ l, (shuffle l).Perm l) (s : Unscramble) (x : Nat) (hx : x ≠ 0) :
    (Unscramble.set_text_length shuffle s x).toAnimator_base.table_valid := by
  obtain ⟨⟨htl, _, hidx, _, _⟩, _, _⟩ :=
    Unscramble.set_text_length_fixed shuffle hshuffle s x (by omega)
  simp only [Animator_base.table_valid, htl]
  simp only [Unscramble.indices] at hidx
  rw [hidx]

theorem Unscramble.table_step_swap {s t : Unscramble} (hstep : Unscramble.step s t)
    (h : s.toAnimator_base.table_valid_or_stale) :
    t.toAnimator_base.table_valid_or_stale := by
  rcases hstep with ⟨x, shuffle, hshuffle, rfl⟩ | ⟨x, rfl⟩ | rfl
  · by_cases hx : x = 0
    · subst hx
      exact Animator_base.table_valid_or_stale_of_eq h rfl (Or.inr rfl)
    · exact Animator_base.table_valid_or_stale_of_valid
        (Unscramble.table_valid_after_zip shuffle hshuffle s x hx)
  · exact Animator_base.table_valid_or_stale_of_eq h rfl (Or.inl rfl)
  · obtain ⟨h1, h2⟩ := h
    simp only [Unscramble.operator_call]
    split_ifs
    · exact ⟨h1, h2⟩
    · refine ⟨?_, ?_⟩
      · simp only [Unscramble.for_loop_indices, Unscramble.for_loop_length]
        exact h1
      · simp only [Unscramble.for_loop_length]
        exact h2


theorem invariant_of_reachable {σ : Type} (step : σ → σ → Prop) (P : σ → Prop)
    (hstep : ∀ s t, step s t → P s → P t) {a b : σ}
    (hab : Relation.ReflTransGen step a b) (ha : P a) : P b := by
  induction hab with
  | refl => exact ha
  | tail _ h ih => exact hstep _ _ h ih

theorem Animator_base.table_valid_of_stale {a : Animator_base}
    (h : a.table_valid_or_stale) (h0 : a.text_length_ ≠ 0) : a.table_valid := by
  obtain ⟨h1, h2 | h2⟩ := h
  · simp only [Animator_base.table_valid, h2]
    exact h1
  · exact absurd h2 h0

/-- A `Scan` whose text length was set to 3 and then to 0 has text length 0 and a
table of 3 entries. -/
theorem Scan_stale_table_after_zero :
    Relation.ReflTransGen Scan.step (idle_Scan.set_text_length 3)
      ((idle_Scan.set_text_length 3).set_text_length 0) ∧
    ((idle_Scan.set_text_length 3).set_text_length 0).text_length_ = 0 ∧
    ((idle_Scan.set_text_length 3).set_text_length 0).data_.length = 3 ∧
    ¬ ((idle_Scan.set_text_length 3).set_text_length 0).toAnimator_base.table_valid :=
  ⟨Relation.ReflTransGen.single (Or.inl ⟨0, rfl⟩), by decide, by decide, by decide⟩

/-- C15, amended: the table invariant of the animators. For `Scroll` and
`Conditional_scroll`, in every state reachable from a call of `set_text_length`
(with any argument, from any prior state) by calls of `set_text_length`, calls of
`set_max_length` and ticks, the table has exactly `text_length` entries and their
text indices are pairwise distinct and below `text_length`. For `Scan`,
`Persistent_scan`, `Random` and `Unscramble`, in every state reachable in the same
way from a call of `set_text_length` with a non-zero argument, the text indices
of the table are pairwise distinct and below its number of entries, and that
number is the text length unless the text length is zero: `set_text_length(0)`
sets the text length and leaves the table of the last non-zero text length. The
ticks of `Unscramble` increment its `int` counter with the 32-bit wrap, and the
invariant reads the text indices only, which are `std::size_t`. -/
theorem table_invariant_of_reachable :
    (∀ s0 x s, Relation.ReflTransGen Scroll.step (Scroll.set_text_length s0 x) s →
      s.toAnimator_base.table_valid) ∧
    (∀ s0 x s,
      Relation.ReflTransGen Conditional_scroll.step
        (Conditional_scroll.set_text_length s0 x) s →
      s.toAnimator_base.table_valid) ∧
    (∀ (s0 : Scan) x s, x ≠ 0 →
      Relation.ReflTransGen Scan.step (s0.set_text_length x) s →
      s.toAnimator_base.table_valid_or_stale ∧
      (s.text_length_ ≠ 0 → s.toAnimator_base.table_valid)) ∧
    (∀ (s0 : Persistent_scan) x s, x ≠ 0 →
      Relation.ReflTransGen Persistent_scan.step (s0.set_text_length x) s →
      s.toAnimator_base.table_valid_or_stale ∧
      (s.text_length_ ≠ 0 → s.toAnimator_base.table_valid)) ∧
    (∀ shuffle (s0 : Random) x s, (∀ l, (shuffle l).Perm l) → x ≠ 0 →
      Relation.ReflTransGen Random.step (Random.set_text_length shuffle s0 x) s →
      s.toAnimator_base.table_valid_or_stale ∧
      (s.text_length_ ≠ 0 → s.toAnimator_base.table_valid)) ∧
    (∀ shuffle (s0 : Unscramble) x s, (∀ l, (shuffle l).Perm l) → x ≠ 0 →
      Relation.ReflTransGen Unscramble.step (Unscramble.set_text_length shuffle s0 x) s →
      s.toAnimator_base.table_valid_or_stale ∧
      (s.text_length_ ≠ 0 → s.toAnimator_base.table_valid)) := by
  refine ⟨?_, ?_, ?_, ?_, ?_, ?_⟩
  · intro s0 x s hreach
    refine invariant_of_reachable Scroll.step (fun s => s.toAnimator_base.table_valid)
      (fun _ _ => Scroll.table_valid_step) hreach ?_
    have := Scroll_base.table_valid_set_text_length s0 x
    simp only [Scroll.set_text_length]
    split_ifs
    · exact this
    · exact this
  · intro s0 x s hreach
    exact invariant_of_reachable Conditional_scroll.step
      (fun s => s.toAnimator_base.table_valid)
      (fun _ _ => Conditional_scroll.table_valid_any_step) hreach
      (Conditional_scroll.table_valid_react _ (Scroll_base.table_valid_set_text_length s0 x))
  · intro s0 x s hx hreach
    have h := invariant_of_reachable Scan.step
      (fun s => s.toAnimator_base.table_valid_or_stale)
      (fun _ _ => Scan.table_step) hreach
      (by
        simp only [Scan.set_text_length, Animator_base.set_text_length, hx, if_false]
        exact Animator_base.table_valid_or_stale_of_valid
          (Animator_base.table_valid_initialize_data _))
    exact ⟨h, Animator_base.table_valid_of_stale h⟩
  · intro s0 x s hx hreach
    have h := invariant_of_reachable Persistent_scan.step
      (fun s => s.toAnimator_base.table_valid_or_stale)
      (fun _ _ => Persistent_scan.table_step_reveal) hreach
      (by
        simp only [Persistent_scan.set_text_length, Animator_base.set_text_length, hx,
          if_false]
        exact Animator_base.table_valid_or_stale_of_valid
          (Animator_base.table_valid_initialize_data _))
    exact ⟨h, Animator_base.table_valid_of_stale h⟩
  · intro shuffle s0 x s hshuffle hx hreach
    have h := invariant_of_reachable Random.step
      (fun s => s.toAnimator_base.table_valid_or_stale)
      (fun _ _ => Random.table_step_shuffled) hreach
      (Animator_base.table_valid_or_stale_of_valid
        (Random.table_valid_after_shuffle shuffle hshuffle s0 x hx))
    exact ⟨h, Animator_base.table_valid_of_stale h⟩
  · intro shuffle s0 x s hshuffle hx hreach
    have h := invariant_of_reachable Unscramble.step
      (fun s => s.toAnimator_base.table_valid_or_stale)
      (fun _ _ => Unscramble.table_step_swap) hreach
      (Animator_base.table_valid_or_stale_of_valid
        (Unscramble.table_valid_after_zip shuffle hshuffle s0 x hx))
    exact ⟨h, Animator_base.table_valid_of_stale h⟩

/-- The invariant on a `Scroll` of text length 2 after one tick, and on a `Scan` of
text length 3 whose text length was then set to 0. -/
theorem table_invariant_of_reachable_witness :
    (Scroll.set_text_length idle_Scroll 2).operator_call.1.toAnimator_base.table_valid ∧
    ((idle_Scan.set_text_length 3).set_text_length 0).toAnimator_base.table_valid_or_stale :=
  ⟨table_invariant_of_reachable.1 idle_Scroll 2 _
     (Relation.ReflTransGen.single (Or.inr (Or.inr rfl))),
   (table_invariant_of_reachable.2.2.1 idle_Scan 3 _ (by decide)
     (Relation.ReflTransGen.single (Or.inl ⟨0, rfl⟩))).1⟩


/-! ## Cancellation and restart -/

/-- C16: cancellation leaves the animator able to restart cleanly. For `Scan`,
`Persistent_scan`, `Scroll` and `Unscramble`: emitting `stop` twice leaves the
same members as emitting it once; for every prior state `s`,
`set_text_length T` with `T > 0` (and `T ≤ INT_MAX`, so that the `int` positions
do not overflow) emits `start` exactly once and produces a state
whose progress counters are all 0, whose `is_started` is true and whose table
has the `T` entries with indices `0, ..., T - 1` and positions `0, ..., T - 1` in
order (for `Unscramble`: the shuffled positions, a permutation of them), nothing
of which depends on `s` (of the prior state only `max_length_` is kept); and
`set_text_length 0` emits nothing. -/
theorem restart_after_cancellation :
    ((∀ s : Scan, s.stop.stop.toAnimator_base.members = s.stop.toAnimator_base.members ∧
        s.stop.stop.begin_ = s.stop.begin_ ∧ s.stop.stop.end_ = s.stop.end_ ∧
        s.stop.stop.hold_ = s.stop.hold_) ∧
      (∀ (s : Scan) (T : Nat), 0 < T → T ≤ INT_MAX →
        s.set_text_length T =
          { toAnimator_base :=
              { data_ := iota_table T, max_length_ := s.max_length_, text_length_ := T,
                started_ := true, emitted_ := s.emitted_ ++ [Signal.start] },
            begin_ := 0, end_ := 0, hold_ := 0 }) ∧
      (∀ s : Scan, (s.set_text_length 0).emitted_ = s.emitted_)) ∧
    ((∀ s : Persistent_scan,
        s.stop.stop.toAnimator_base.members = s.stop.toAnimator_base.members ∧
        s.stop.stop.end_ = s.stop.end_) ∧
      (∀ (s : Persistent_scan) (T : Nat), 0 < T → T ≤ INT_MAX →
        s.set_text_length T =
          { toAnimator_base :=
              { data_ := iota_table T, max_length_ := s.max_length_, text_length_ := T,
                started_ := true, emitted_ := s.emitted_ ++ [Signal.start] },
            end_ := 0 }) ∧
      (∀ s : Persistent_scan, (s.set_text_length 0).emitted_ = s.emitted_)) ∧
    ((∀ s : Scroll_base,
        s.stop.stop.toAnimator_base.members = s.stop.toAnimator_base.members ∧
        s.stop.stop.begin_ = s.stop.begin_ ∧ s.stop.stop.hold_ = s.stop.hold_ ∧
        s.stop.stop.hold_length_ = s.stop.hold_length_) ∧
      (∀ (s : Scroll_base) (T : Nat), 0 < T → T ≤ INT_MAX →
        Scroll.set_text_length s T =
          { toAnimator_base :=
              { data_ := iota_table T, max_length_ := s.max_length_, text_length_ := T,
                started_ := true, emitted_ := s.emitted_ ++ [Signal.start] },
            begin_ := 0, hold_ := 0, hold_length_ := 20 }) ∧
      (∀ s : Scroll_base, (Scroll.set_text_length s 0).emitted_ = s.emitted_)) ∧
    ((∀ s : Unscramble,
        s.stop.stop.toAnimator_base.members = s.stop.toAnimator_base.members ∧
        s.stop.stop.sorted_to_ = s.stop.sorted_to_) ∧
      (∀ (shuffle : List Int → List Int) (s : Unscramble) (T : Nat),
        (∀ l, (shuffle l).Perm l) → 0 < T → T ≤ INT_MAX →
        Unscramble.set_text_length shuffle s T =
          { toAnimator_base :=
              { data_ := Unscramble.zip (List.range T)
                  (shuffle ((List.range T).map Int.ofNat)),
                max_length_ := s.max_length_, text_length_ := T,
                started_ := true, emitted_ := s.emitted_ ++ [Signal.start] },
            sorted_to_ := 0 } ∧
        (Unscramble.set_text_length shuffle s T).data_.length = T ∧
        (Unscramble.set_text_length shuffle s T).indices = List.range T ∧
        (Unscramble.set_text_length shuffle s T).positions.Perm
          ((List.range T).map Int.ofNat)) ∧
      (∀ (shuffle : List Int → List Int) (s : Unscramble),
        (Unscramble.set_text_length shuffle s 0).emitted_ = s.emitted_)) := by
  refine ⟨⟨?_, ?_, ?_⟩, ⟨?_, ?_, ?_⟩, ⟨?_, ?_, ?_⟩, ⟨?_, ?_, ?_⟩⟩
  · intro s
    exact ⟨rfl, rfl, rfl, rfl⟩
  · intro s T hT _
    have hT0 : T ≠ 0 := by omega
    simp [Scan.set_text_length, Animator_base.set_text_length, hT0,
      Animator_base.initialize_data, Animator_base.start]
  · intro s
    rfl
  · intro s
    exact ⟨rfl, rfl⟩
  · intro s T hT _
    have hT0 : T ≠ 0 := by omega
    simp [Persistent_scan.set_text_length, Animator_base.set_text_length, hT0,
      Animator_base.initialize_data, Animator_base.start]
  · intro s
    rfl
  · intro s
    exact ⟨rfl, rfl, rfl, rfl⟩
  · intro s T hT _
    have hT0 : T ≠ 0 := by omega
    simp [Scroll.set_text_length, Scroll_base.set_text_length_state, hT0, Scroll_base.start,
      Animator_base.start]
  · intro s
    simp [Scroll.set_text_length, Scroll_base.set_text_length_state]
  · intro s
    exact ⟨rfl, rfl⟩
  · intro shuffle s T hshuffle hT _
    have hT0 : T ≠ 0 := by omega
    obtain ⟨⟨_, _, hidx, hperm, _⟩, _, _⟩ :=
      Unscramble.set_text_length_fixed shuffle hshuffle s T hT
    refine ⟨?_, ?_, hidx, hperm⟩
    · simp [Unscramble.set_text_length, Animator_base.set_text_length, hT0,
        Unscramble.initialize_data, Animator_base.start]
    · have := congrArg List.length hidx
      simpa [Unscramble.indices] using this
  · intro shuffle s
    rfl

/-- A `Scan` that ran to its end, was stopped twice and is given a new text of
length 2 is in the state of a first start, apart from the log of signals. -/
theorem restart_after_cancellation_witness :
    0 < 2 ∧ 2 ≤ INT_MAX ∧
    ((Scan.ticks 11 (idle_Scan.set_text_length 2)).stop.stop.set_text_length 2).begin_ = 0 ∧
    ((Scan.ticks 11 (idle_Scan.set_text_length 2)).stop.stop.set_text_length 2).data_ =
      iota_table 2 :=
  ⟨by decide, by decide,
   congrArg Scan.begin_ (restart_after_cancellation.1.2.1
     (Scan.ticks 11 (idle_Scan.set_text_length 2)).stop.stop 2 (by decide) (by decide)),
   congrArg (fun s : Scan => s.data_) (restart_after_cancellation.1.2.1
     (Scan.ticks 11 (idle_Scan.set_text_length 2)).stop.stop 2 (by decide) (by decide))⟩


/-! ## Persistent_scan and Random -/

theorem Persistent_scan.operator_call_reveal_one (B : Animator_base) (e : Nat)
    (he : e < B.text_length_) (hsize : B.text_length_ < SIZE_MOD) :
    Persistent_scan.operator_call { toAnimator_base := B, end_ := e } =
      ({ toAnimator_base := B, end_ := e + 1 }, { begin_ := 0, end_ := e }) := by
  have h1 : e ≠ B.text_length_ := by omega
  have h2 : (e + 1) % SIZE_MOD = e + 1 := Nat.mod_eq_of_lt (by omega)
  simp [Persistent_scan.operator_call, h1, h2]

theorem Persistent_scan.operator_call_full (s : Persistent_scan)
    (he : s.end_ = s.text_length_) :
    s.operator_call = ({ s with toAnimator_base := s.toAnimator_base.stop },
      { begin_ := 0, end_ := s.data_.length }) := by
  simp [Persistent_scan.operator_call, he, Animator_base.stop]

theorem Persistent_scan.ticks_grow (B : Animator_base) (hsize : B.text_length_ < SIZE_MOD)
    (k : Nat) (hk : k ≤ B.text_length_) :
    Persistent_scan.ticks k { toAnimator_base := B, end_ := 0 } =
      { toAnimator_base := B, end_ := k } := by
  induction k with
  | zero => rfl
  | succ k ih =>
    rw [Persistent_scan.ticks, ih (by omega),
      Persistent_scan.operator_call_reveal_one B k (by omega) hsize]

theorem Persistent_scan.ticks_full (B : Animator_base) (hsize : B.text_length_ < SIZE_MOD)
    (k : Nat) (hk : B.text_length_ ≤ k) :
    (Persistent_scan.ticks k { toAnimator_base := B, end_ := 0 }).end_ = B.text_length_ ∧
    (Persistent_scan.ticks k { toAnimator_base := B, end_ := 0 }).text_length_ =
      B.text_length_ ∧
    (Persistent_scan.ticks k { toAnimator_base := B, end_ := 0 }).data_ = B.data_ := by
  induction k with
  | zero =>
    have h0 : B.text_length_ = 0 := by omega
    exact ⟨h0.symm, rfl, rfl⟩
  | succ k ih =>
    by_cases hkT : B.text_length_ ≤ k
    · obtain ⟨h1, h2, h3⟩ := ih hkT
      rw [Persistent_scan.ticks, Persistent_scan.operator_call_full _ (h1.trans h2.symm)]
      exact ⟨h1, h2, h3⟩
    · have hk1 : k + 1 = B.text_length_ := by omega
      rw [Persistent_scan.ticks_grow B hsize (k + 1) (by omega)]
      exact ⟨hk1, rfl, rfl⟩

theorem Persistent_scan.range_of_tick_succ (k : Nat) (s : Persistent_scan) :
    Persistent_scan.range_of_tick (k + 1) s = (Persistent_scan.ticks k s).operator_call.2 :=
  rfl

/-- The progressive reveal of `Persistent_scan` from a state with `end_ = 0` and a
table of `text_length_` entries. -/
theorem Persistent_scan.reveal (B : Animator_base) (hsize : B.text_length_ < SIZE_MOD)
    (hlen : B.data_.length = B.text_length_) :
    (∀ k, 1 ≤ k → k ≤ B.text_length_ →
      Persistent_scan.range_of_tick k { toAnimator_base := B, end_ := 0 } =
        { begin_ := 0, end_ := k - 1 } ∧
      Persistent_scan.range_of_tick (k + 1) { toAnimator_base := B, end_ := 0 } =
        { begin_ := 0, end_ := k }) ∧
    (∀ k, B.text_length_ < k →
      Persistent_scan.range_of_tick k { toAnimator_base := B, end_ := 0 } =
        { begin_ := 0, end_ := B.text_length_ } ∧
      Persistent_scan.ticks k { toAnimator_base := B, end_ := 0 } =
        { Persistent_scan.ticks (k - 1) { toAnimator_base := B, end_ := 0 } with
          toAnimator_base :=
            (Persistent_scan.ticks (k - 1)
              { toAnimator_base := B, end_ := 0 }).toAnimator_base.stop }) ∧
    (∀ k, (Persistent_scan.ticks k { toAnimator_base := B, end_ := 0 }).data_ = B.data_) := by
  have hfullrange : ∀ j, B.text_length_ ≤ j →
      (Persistent_scan.ticks j { toAnimator_base := B, end_ := 0 }).operator_call =
        ({ Persistent_scan.ticks j { toAnimator_base := B, end_ := 0 } with
            toAnimator_base :=
              (Persistent_scan.ticks j
                { toAnimator_base := B, end_ := 0 }).toAnimator_base.stop },
         { begin_ := 0, end_ := B.text_length_ }) := by
    intro j hj
    obtain ⟨h1, h2, h3⟩ := Persistent_scan.ticks_full B hsize j hj
    rw [Persistent_scan.operator_call_full _ (h1.trans h2.symm), h3, hlen]
  have hgrow : ∀ j, j < B.text_length_ →
      (Persistent_scan.ticks j { toAnimator_base := B, end_ := 0 }).operator_call.2 =
        { begin_ := 0, end_ := j } := by
    intro j hj
    rw [Persistent_scan.ticks_grow B hsize j (by omega),
      Persistent_scan.operator_call_reveal_one B j hj hsize]
  refine ⟨?_, ?_, ?_⟩
  · intro k hk1 hk2
    obtain ⟨j, rfl⟩ : ∃ j, k = j + 1 := ⟨k - 1, by omega⟩
    refine ⟨?_, ?_⟩
    · rw [Persistent_scan.range_of_tick_succ, hgrow j (by omega)]
      rfl
    · rw [Persistent_scan.range_of_tick_succ]
      by_cases hj : j + 1 < B.text_length_
      · exact hgrow (j + 1) hj
      · have hjT : j + 1 = B.text_length_ := by omega
        rw [hfullrange (j + 1) (by omega), hjT]
  · intro k hk
    obtain ⟨j, rfl⟩ : ∃ j, k = j + 1 := ⟨k - 1, by omega⟩
    have hj : B.text_length_ ≤ j := by omega
    refine ⟨?_, ?_⟩
    · rw [Persistent_scan.range_of_tick_succ, hfullrange j hj]
    · rw [Persistent_scan.ticks, hfullrange j hj]
      rfl
  · intro k
    by_cases hk : k ≤ B.text_length_
    · rw [Persistent_scan.ticks_grow B hsize k hk]
    · exact (Persistent_scan.ticks_full B hsize k (by omega)).2.2

/-- The tick of `Random` is the tick of `Persistent_scan` on the same members. -/
theorem Random.operator_call_as_Persistent_scan (r : Random) :
    r.operator_call.1.as_Persistent_scan = r.as_Persistent_scan.operator_call.1 ∧
    r.operator_call.2 = r.as_Persistent_scan.operator_call.2 := by
  simp only [Random.operator_call, Persistent_scan.operator_call, Random.as_Persistent_scan]
  split_ifs <;> exact ⟨rfl, rfl⟩

theorem Random.ticks_as_Persistent_scan (k : Nat) (r : Random) :
    (Random.ticks k r).as_Persistent_scan = Persistent_scan.ticks k r.as_Persistent_scan := by
  induction k with
  | zero => rfl
  | succ k ih =>
    rw [Random.ticks, Persistent_scan.ticks, (Random.operator_call_as_Persistent_scan _).1, ih]

theorem Random.range_of_tick_as_Persistent_scan (k : Nat) (r : Random) :
    Random.range_of_tick k r = Persistent_scan.range_of_tick k r.as_Persistent_scan := by
  rw [Random.range_of_tick, Persistent_scan.range_of_tick,
    (Random.operator_call_as_Persistent_scan _).2, Random.ticks_as_Persistent_scan]


theorem Persistent_scan.progressive_reveal_of (B : Animator_base)
    (hsize : B.text_length_ < SIZE_MOD) (hlen : B.data_.length = B.text_length_) :
    progressive_reveal B.text_length_
      (fun k => Persistent_scan.range_of_tick k { toAnimator_base := B, end_ := 0 })
      (fun k => (Persistent_scan.ticks k { toAnimator_base := B, end_ := 0 }).toAnimator_base)
      (fun k => (Persistent_scan.ticks k { toAnimator_base := B, end_ := 0 }).end_) := by
  obtain ⟨h1, h2, h3⟩ := Persistent_scan.reveal B hsize hlen
  refine ⟨h1, ?_⟩
  intro k hk
  obtain ⟨hr, ht⟩ := h2 k hk
  have hd := h3 k
  have hd1 := h3 (k - 1)
  simp only at hr ht hd hd1 ⊢
  refine ⟨hr, ?_, by rw [hd, hlen], ?_, ?_, by rw [hd, hd1], ?_, ?_, ?_⟩
  · rw [hr, hd]
    simp [IP_range.entries, ← hlen]
  · rw [ht]
    rfl
  · rw [ht]
    rfl
  · rw [ht]
    rfl
  · rw [ht]
    rfl
  · rw [ht]

/-- C17: `Persistent_scan` and `Random` share the same progressive-reveal
mechanics. Initialised by `set_text_length T` with `T > 0` (and `T ≤ INT_MAX`, so
that the `int` positions of the table do not overflow), each of them returns
on every tick a range anchored at the left end of the table; up to tick `T` the
range of tick `k + 1` is one entry longer than that of tick `k` (tick `k` returns
`k - 1` entries); every tick after tick `T` returns the full range of `T`
entries, emits `stop` and leaves the table and the counter unchanged. The table
of `Persistent_scan` is `{0,0}, ..., {T-1,T-1}`; that of `Random` is a permutation
of these pairs, so each entry has position equal to index. The tick of `Random`
is the tick of `Persistent_scan` on the same members. -/
theorem Persistent_scan_Random_reveal (T : Nat) (hT : 0 < T) (hint : T ≤ INT_MAX) :
    (∀ s0 : Persistent_scan,
      progressive_reveal T
        (fun k => Persistent_scan.range_of_tick k (s0.set_text_length T))
        (fun k => (Persistent_scan.ticks k (s0.set_text_length T)).toAnimator_base)
        (fun k => (Persistent_scan.ticks k (s0.set_text_length T)).end_) ∧
      ∀ k, (Persistent_scan.ticks k (s0.set_text_length T)).data_ = iota_table T) ∧
    (∀ (shuffle : List Index_and_position → List Index_and_position) (s0 : Random),
      (∀ l, (shuffle l).Perm l) →
      progressive_reveal T
        (fun k => Random.range_of_tick k (Random.set_text_length shuffle s0 T))
        (fun k => (Random.ticks k (Random.set_text_length shuffle s0 T)).toAnimator_base)
        (fun k => (Random.ticks k (Random.set_text_length shuffle s0 T)).end_) ∧
      ∀ k,
        (Random.ticks k (Random.set_text_length shuffle s0 T)).data_ =
          shuffle (iota_table T) ∧
        (Random.ticks k (Random.set_text_length shuffle s0 T)).data_.Perm (iota_table T) ∧
        ∀ e ∈ (Random.ticks k (Random.set_text_length shuffle s0 T)).data_,
          e.position = (e.index : Int)) ∧
    (∀ r : Random,
      r.operator_call.1.as_Persistent_scan = r.as_Persistent_scan.operator_call.1 ∧
      r.operator_call.2 = r.as_Persistent_scan.operator_call.2) := by
  have hsize : T < SIZE_MOD := by
    simp only [SIZE_MOD, INT_MAX] at *
    omega
  have hT0 : T ≠ 0 := by omega
  refine ⟨?_, ?_, Random.operator_call_as_Persistent_scan⟩
  · intro s0
    have hs : s0.set_text_length T =
        { toAnimator_base := (s0.toAnimator_base.set_text_length T).initialize_data.start,
          end_ := 0 } := by
      simp [Persistent_scan.set_text_length, Animator_base.set_text_length, hT0]
    rw [hs]
    have hrev := Persistent_scan.progressive_reveal_of
      (s0.toAnimator_base.set_text_length T).initialize_data.start hsize
      (iota_table_length T)
    have hdat := (Persistent_scan.reveal
      (s0.toAnimator_base.set_text_length T).initialize_data.start hsize
      (iota_table_length T)).2.2
    exact ⟨hrev, hdat⟩
  · intro shuffle s0 hshuffle
    have hs : (Random.set_text_length shuffle s0 T).as_Persistent_scan =
        { toAnimator_base :=
            { data_ := shuffle (iota_table T), max_length_ := s0.max_length_,
              text_length_ := T, started_ := true,
              emitted_ := s0.emitted_ ++ [Signal.start] },
          end_ := 0 } := by
      simp [Random.set_text_length, Random.as_Persistent_scan,
        Animator_base.set_text_length, hT0, Animator_base.initialize_data,
        Animator_base.start]
    have hlen : (shuffle (iota_table T)).length = T := by
      rw [(hshuffle _).length_eq, iota_table_length]
    have hbase : ∀ k,
        (Random.ticks k (Random.set_text_length shuffle s0 T)).toAnimator_base =
          (Persistent_scan.ticks k
            (Random.set_text_length shuffle s0 T).as_Persistent_scan).toAnimator_base := by
      intro k
      rw [← Random.ticks_as_Persistent_scan]
      rfl
    have hend : ∀ k,
        (Random.ticks k (Random.set_text_length shuffle s0 T)).end_ =
          (Persistent_scan.ticks k
            (Random.set_text_length shuffle s0 T).as_Persistent_scan).end_ := by
      intro k
      rw [← Random.ticks_as_Persistent_scan]
      rfl
    have hrev := Persistent_scan.progressive_reveal_of
      { data_ := shuffle (iota_table T), max_length_ := s0.max_length_,
        text_length_ := T, started_ := true,
        emitted_ := s0.emitted_ ++ [Signal.start] } hsize hlen
    have hdat := (Persistent_scan.reveal
      { data_ := shuffle (iota_table T), max_length_ := s0.max_length_,
        text_length_ := T, started_ := true,
        emitted_ := s0.emitted_ ++ [Signal.start] } hsize hlen).2.2
    have hdata : ∀ k,
        (Random.ticks k (Random.set_text_length shuffle s0 T)).data_ =
          shuffle (iota_table T) := by
      intro k
      have := congrArg Animator_base.data_ (hbase k)
      rw [hs] at this
      rw [this]
      exact hdat k
    refine ⟨?_, ?_⟩
    · simp only [Random.range_of_tick_as_Persistent_scan, hbase, hend]
      rw [hs]
      exact hrev
    · intro k
      rw [hdata k]
      refine ⟨rfl, hshuffle _, ?_⟩
      intro e he
      have he2 : e ∈ iota_table T := (hshuffle _).mem_iff.mp he
      simp only [iota_table, List.mem_map, List.mem_range] at he2
      obtain ⟨i, _, rfl⟩ := he2
      rfl

/-- The reveal of a `Persistent_scan` with text length 2: tick 1 returns the empty
range, tick 2 one entry, tick 3 the full range. -/
theorem Persistent_scan_Random_reveal_witness :
    0 < 2 ∧ 2 ≤ INT_MAX ∧
    Persistent_scan.range_of_tick 1 (idle_Persistent_scan.set_text_length 2) =
      { begin_ := 0, end_ := 0 } ∧
    Persistent_scan.range_of_tick 2 (idle_Persistent_scan.set_text_length 2) =
      { begin_ := 0, end_ := 1 } ∧
    Persistent_scan.range_of_tick 3 (idle_Persistent_scan.set_text_length 2) =
      { begin_ := 0, end_ := 2 } :=
  ⟨by decide, by decide,
   (((Persistent_scan_Random_reveal 2 (by decide) (by decide)).1
     idle_Persistent_scan).1.1 1 (by decide) (by decide)).1,
   (((Persistent_scan_Random_reveal 2 (by decide) (by decide)).1
     idle_Persistent_scan).1.1 1 (by decide) (by decide)).2,
   (((Persistent_scan_Random_reveal 2 (by decide) (by decide)).1
     idle_Persistent_scan).1.2 3 (by decide)).1⟩

end ox.animator

namespace mcurses

/-! ## Resize and keyboard input -/

/-- C18: a dispatch iteration on the resize code posts nothing, whether or not a
root widget exists: `handle_resize_event` returns an empty pointer and
`handle_resize_object` returns `nullptr`, so the final test of
`post_user_input` fails and no resize event reaches the root. -/
theorem post_user_input_resize_posts_nothing (k : NCurses) (head : Option Object)
    (getmouse : Option MEVENT) (hk : k.KEY_RESIZE ≠ k.KEY_MOUSE) :
    post_user_input k head k.KEY_RESIZE getmouse =
      .ok { posted := [], cycle_tab_focus := false } := by
  simp [post_user_input, hk, post_if_both, handle_resize_object, handle_resize_event]

/-- A resize input over `press_tree`, whose root exists, posts nothing. -/
theorem post_user_input_resize_posts_nothing_witness :
    ncurses6.KEY_RESIZE ≠ ncurses6.KEY_MOUSE ∧
    post_user_input ncurses6 (some press_tree) ncurses6.KEY_RESIZE none =
      .ok { posted := [], cycle_tab_focus := false } :=
  ⟨by decide,
   post_user_input_resize_posts_nothing ncurses6 (some press_tree) none (by decide)⟩

/-- C19: a dispatch iteration on a key code fails. For every input other than the
mouse and resize codes, `post_user_input` reads the key of the event through
the empty pointer returned by `handle_keyboard_event`, before the test for the
cycle key 9 and before anything is posted. -/
theorem post_user_input_key_faults (k : NCurses) (head : Option Object) (input : Int)
    (getmouse : Option MEVENT) (h1 : input ≠ k.KEY_MOUSE) (h2 : input ≠ k.KEY_RESIZE) :
    post_user_input k head input getmouse = .error Fault.null_dereference := by
  simp [post_user_input, h1, h2, handle_keyboard_event]

/-- The key code 9 over `press_tree` ends in the fault, and so does the letter
`a`. -/
theorem post_user_input_key_faults_witness :
    (9 : Int) ≠ ncurses6.KEY_MOUSE ∧ (9 : Int) ≠ ncurses6.KEY_RESIZE ∧
    post_user_input ncurses6 (some press_tree) 9 none = .error Fault.null_dereference ∧
    post_user_input ncurses6 (some press_tree) 97 none = .error Fault.null_dereference :=
  ⟨by decide, by decide,
   post_user_input_key_faults ncurses6 (some press_tree) 9 none (by decide) (by decide),
   post_user_input_key_faults ncurses6 (some press_tree) 97 none (by decide) (by decide)⟩

end mcurses

namespace cppurses

/-! ## Text_display -/

theorem last_whitespace_bounds (contents : List Char) (start : Nat) :
    ∀ (n i : Nat), last_whitespace contents start n = some i → start ≤ i ∧ i < start + n
  | 0, i, h => by simp [last_whitespace] at h
  | n + 1, i, h => by
    rw [last_whitespace] at h
    have ih := last_whitespace_bounds contents start n i
    split at h
    · split at h
      · simp only [Option.some.injEq] at h
        omega
      · have := ih h
        omega
    · have := ih h
      omega

theorem line_break_bounds (contents : List Char) (start width : Nat) (word_wrap : Bool)
    (hw : 1 ≤ width) :
    start < line_break contents start width word_wrap ∧
    line_break contents start width word_wrap ≤ start + width := by
  simp only [line_break]
  split_ifs
  · split
    · rename_i i hi
      have := last_whitespace_bounds contents start width i hi
      omega
    · omega
  · omega

/-- The descriptors produced from `start` are contiguous up to the length of the
content and no line is longer than the width, when enough lines are allowed. -/
theorem layout_lines_contiguous (contents : List Char) (width : Nat) (word_wrap : Bool) :
    ∀ (fuel start : Nat), start ≤ contents.length → contents.length - start < fuel →
      ∃ lines, layout_lines contents width word_wrap fuel start = some lines ∧
        contiguous start contents.length lines ∧
        ∀ l ∈ lines, l.length ≤ max width 1
  | 0, start, _, h => by omega
  | fuel + 1, start, hs, hf => by
    rw [layout_lines]
    by_cases hlast : contents.length - start < max width 1
    · simp only [hlast, if_true]
      refine ⟨_, rfl, ⟨rfl, ?_⟩, ?_⟩
      · show start + (contents.length - start) = contents.length
        omega
      intro l hl
      simp only [List.mem_singleton] at hl
      subst hl
      exact Nat.le_of_lt hlast
    · simp only [hlast, if_false]
      have hb := line_break_bounds contents start (max width 1) word_wrap (by omega)
      obtain ⟨rest, hrest, hcont, hlen⟩ := layout_lines_contiguous contents width word_wrap
        fuel (line_break contents start (max width 1) word_wrap) (by omega) (by omega)
      rw [hrest]
      refine ⟨_, rfl, ?_, ?_⟩
      · cases rest with
        | nil => exact absurd hcont (by simp [contiguous])
        | cons m r =>
          refine ⟨rfl, by simp only; omega, ?_⟩
          have hsum : start + (line_break contents start (max width 1) word_wrap - start) =
              line_break contents start (max width 1) word_wrap := by omega
          simp only [hsum]
          exact hcont
      · intro l hl
        rcases List.mem_cons.mp hl with rfl | hl
        · simp only
          omega
        · exact hlen l hl

theorem contiguous_head : ∀ (lines : List line_info) (start stop : Nat),
    contiguous start stop lines → ∃ l, lines[0]? = some l ∧ l.start_index = start
  | [], _, _, h => by simp [contiguous] at h
  | [l], _, _, h => ⟨l, rfl, h.1⟩
  | l :: _ :: _, _, _, h => ⟨l, rfl, h.1⟩

theorem contiguous_consecutive : ∀ (lines : List line_info) (start stop : Nat),
    contiguous start stop lines → ∀ i a b, lines[i]? = some a → lines[i + 1]? = some b →
      b.start_index = a.start_index + a.length ∧ a.start_index < b.start_index
  | [], _, _, h => by simp [contiguous] at h
  | [l], _, _, _ => by
    intro i a b _ hb
    simp at hb
  | l :: m :: rest, start, stop, h => by
    intro i a b ha hb
    obtain ⟨h1, h2, h3⟩ := h
    cases i with
    | zero =>
      simp only [List.getElem?_cons_zero, Option.some.injEq, zero_add,
        List.getElem?_cons_succ] at ha hb
      subst ha hb
      obtain ⟨m', hm', hms⟩ := contiguous_head _ _ _ h3
      simp only [List.getElem?_cons_zero, Option.some.injEq] at hm'
      subst hm'
      omega
    | succ n =>
      rw [List.getElem?_cons_succ] at ha hb
      exact contiguous_consecutive (m :: rest) _ _ h3 n a b ha hb

theorem contiguous_last : ∀ (lines : List line_info) (start stop : Nat),
    contiguous start stop lines →
      ∃ l, lines.getLast? = some l ∧ l.start_index + l.length = stop
  | [], _, _, h => by simp [contiguous] at h
  | [l], _, _, h => ⟨l, rfl, by rw [h.1]; exact h.2⟩
  | l :: m :: rest, _, _, h => by
    obtain ⟨l', h1, h2⟩ := contiguous_last (m :: rest) _ _ h.2.2
    exact ⟨l', by rw [List.getLast?_cons_cons]; exact h1, h2⟩

/-- C20: for every content and every display width `W ≥ 1`, with word wrap on or
off, the line descriptors held after the relayout partition `[0, |C|)` exactly:
the first descriptor starts at 0, each next descriptor starts where the one
before ends, the start indices are strictly increasing, and the last
descriptor ends at `|C|`; for empty content the table is the single descriptor
`{0, 0}`. No line is longer than the width, and `top_line_` is clamped to the
table. -/
theorem update_display_partitions (t : Text_display) (hW : 1 ≤ t.width) :
    (∃ l, (update_display t).display_state_[0]? = some l ∧ l.start_index = 0) ∧
    (∀ i a b, (update_display t).display_state_[i]? = some a →
      (update_display t).display_state_[i + 1]? = some b →
      b.start_index = a.start_index + a.length ∧ a.start_index < b.start_index) ∧
    (∃ l, (update_display t).display_state_.getLast? = some l ∧
      l.start_index + l.length = t.contents_.length) ∧
    (t.contents_ = [] →
      (update_display t).display_state_ = [{ start_index := 0, length := 0 }]) ∧
    (∀ l ∈ (update_display t).display_state_, l.length ≤ t.width) ∧
    (update_display t).top_line_ < (update_display t).display_state_.length := by
  obtain ⟨lines, hlines, hcont, hlen⟩ := layout_lines_contiguous t.contents_ t.width
    t.word_wrap_ (t.contents_.length + 1) 0 (Nat.zero_le _) (by omega)
  have hmax : max t.width 1 = t.width := Nat.max_eq_left hW
  have hd : (update_display t).display_state_ = lines := by
    simp only [update_display, hlines]
  have htop : (update_display t).top_line_ = min t.top_line_ (lines.length - 1) := by
    simp only [update_display, hlines]
  rw [hd, htop]
  refine ⟨contiguous_head _ _ _ hcont, contiguous_consecutive _ _ _ hcont,
    contiguous_last _ _ _ hcont, ?_, ?_, ?_⟩
  · intro hempty
    have h0 : layout_lines t.contents_ t.width t.word_wrap_ (t.contents_.length + 1) 0 =
        some [{ start_index := 0, length := 0 }] := by
      rw [hempty]
      simp only [List.length_nil, Nat.zero_add, layout_lines, Nat.sub_zero]
      rw [if_pos (by omega)]
    rw [h0] at hlines
    exact (Option.some.inj hlines).symm
  · intro l hl
    rw [← hmax]
    exact hlen l hl
  · cases lines with
    | nil => exact absurd hcont (by simp [contiguous])
    | cons l r =>
      simp only [List.length_cons]
      omega

/-- The layout of "the quick fox jumps" at width 10 with word wrap: the first
line ends after "the quick " and the second line holds the rest. -/
theorem update_display_partitions_witness :
    1 ≤ quick_fox.width ∧
    (update_display quick_fox).display_state_ =
      [{ start_index := 0, length := 10 }, { start_index := 10, length := 9 }] ∧
    ∃ l, (update_display quick_fox).display_state_.getLast? = some l ∧
      l.start_index + l.length = quick_fox.contents_.length :=
  ⟨by decide, by decide, (update_display_partitions quick_fox (by decide)).2.2.1⟩

end cppurses

namespace mcurses

/-! ## The greedy chain of `find_object` -/

/-- The greedy chain from an object is unique. -/
theorem Chain.unique {x y : Nat} {o w : Object} {p : List Nat} (h : Chain x y o p w) :
    ∀ {p' : List Nat} {w' : Object}, Chain x y o p' w' → p' = p ∧ w' = w := by
  induction h with
  | stop o hnone =>
    intro p' w' h'
    cases h' with
    | stop _ _ => exact ⟨rfl, rfl⟩
    | step _ c _ i _ hc _ hhit _ =>
      rw [hnone c (List.getElem?_mem hc)] at hhit
      cases hhit
  | step o c w i p hc hfirst hhit _ ih =>
    intro p' w' h'
    cases h' with
    | stop _ hnone =>
      rw [hnone c (List.getElem?_mem hc)] at hhit
      cases hhit
    | step _ c' _ i' q hc' hfirst' hhit' hrest' =>
      have hii : i' = i := by
        rcases Nat.lt_trichotomy i' i with hlt | heq | hgt
        · rw [hfirst i' c' hlt hc'] at hhit'
          cases hhit'
        · exact heq
        · rw [hfirst' i c hgt hc] at hhit
          cases hhit
      subst hii
      rw [hc] at hc'
      cases hc'
      obtain ⟨hq, hw⟩ := ih hrest'
      exact ⟨by rw [hq], hw⟩

/-- C21: `find_object` is a total function on widget trees and follows the greedy
descent. When the root contains the point, its result is the end of the unique
chain `root = w0, w1, ..., wn` in which each `w(i+1)` is the first child of `w(i)`
in declared order that is enabled and contains the point and `wn` has no
enabled child containing the point; children earlier in the order that are
disabled or do not contain the point do not keep a later enabled sibling that
contains the point from being chosen. -/
theorem find_object_greedy_chain (root : Object) (x y : Nat)
    (hroot : root.has_coordinates x y = true) :
    (∃ p w, find_object (some root) x y = some p ∧ root.deref p = some w ∧
      Chain x y root p w ∧
      ∀ p' w', Chain x y root p' w' → p' = p ∧ w' = w) ∧
    (∀ i c, root.children[i]? = some c →
      c.has_coordinates x y = true → c.is_enabled = true →
      (∀ j c', j < i → root.children[j]? = some c' →
        c'.is_enabled = false ∨ c'.has_coordinates x y = false) →
      ∃ q, find_object (some root) x y = some (i :: q)) := by
  obtain ⟨w, hw⟩ := find_object_while_chain x y root
  have hfind := find_object_of_has_coordinates hroot
  refine ⟨⟨_, w, hfind, hw.deref_eq, hw, fun p' w' h' => hw.unique h'⟩, ?_⟩
  intro i c hc hcoord hen hearlier
  have hhit : hit x y c = true := by simp [hit, hcoord, hen]
  have hfirst : ∀ j c', j < i → root.children[j]? = some c' → hit x y c' = false := by
    intro j c' hj hc'
    rcases hearlier j c' hj hc' with h | h <;> simp [hit, h]
  obtain ⟨v, hv⟩ := find_object_while_chain x y c
  have hchain : Chain x y root (i :: find_object_while c x y) v :=
    Chain.step root c v i _ hc hfirst hhit hv
  obtain ⟨hp, _⟩ := hw.unique hchain
  exact ⟨find_object_while c x y, by rw [hfind, ← hp]⟩

/-- In `skipped_siblings_tree` at `(0,0)` the disabled first child and the second
child, which does not contain the point, are passed over and the third child
is returned. -/
theorem find_object_greedy_chain_witness :
    skipped_siblings_tree.has_coordinates 0 0 = true ∧
    find_object (some skipped_siblings_tree) 0 0 = some [2] ∧
    ∃ q, find_object (some skipped_siblings_tree) 0 0 = some (2 :: q) :=
  ⟨by decide, by decide,
   (find_object_greedy_chain skipped_siblings_tree 0 0 (by decide)).2 2 (leaf true) rfl
     (by decide) (by decide)
     (by
       intro j c' hj hc'
       have hj2 : j = 0 ∨ j = 1 := by omega
       rcases hj2 with rfl | rfl
       · simp only [skipped_siblings_tree, Object.children, List.getElem?_cons_zero,
           Option.some.injEq] at hc'
         subst hc'
         exact Or.inl rfl
       · simp only [skipped_siblings_tree, Object.children, List.getElem?_cons_succ,
           List.getElem?_cons_zero, Option.some.injEq] at hc'
         subst hc'
         exact Or.inr (by decide))⟩

end mcurses

namespace ox.animator

/-! ## Display positions of Scroll -/

/-- Every state reached by ticks from a fresh `Scroll_base` is a shifted state. -/
theorem Scroll_base.ticks_shifted (B : Animator_base) (hsize : B.text_length_ < SIZE_MOD)
    (n : Nat) :
    ∃ b h, b ≤ B.text_length_ ∧ h ≤ 20 ∧
      Scroll_base.ticks n (Scroll_base.shifted B 0 0) = Scroll_base.shifted B b h := by
  induction n with
  | zero => exact ⟨0, 0, Nat.zero_le _, by omega, rfl⟩
  | succ n ih =>
    obtain ⟨b, h, hb, hh, heq⟩ := ih
    rw [Scroll_base.ticks, heq]
    by_cases hh20 : h < 20
    · exact ⟨b, h + 1, hb, by omega, Scroll_base.operator_call_holding B b h hh20⟩
    · have h20 : h = 20 := by omega
      subst h20
      by_cases hbT : b = B.text_length_
      · subst hbT
        exact ⟨0, 0, Nat.zero_le _, by omega, Scroll_base.operator_call_reset B⟩
      · exact ⟨b + 1, 20, by omega, le_refl 20,
          Scroll_base.operator_call_shift B b (by omega) hsize⟩

theorem Scroll.set_text_length_fresh (s0 : Scroll_base) (T : Nat) :
    ∃ B : Animator_base, B.text_length_ = T ∧
      Scroll.set_text_length s0 T = Scroll_base.shifted B 0 0 := by
  by_cases hT : T = 0
  · subst hT
    refine ⟨s0.toAnimator_base.set_text_length 0, rfl, ?_⟩
    simp [Scroll.set_text_length, Scroll_base.set_text_length_state, Scroll_base.shifted,
      Animator_base.set_text_length, scrolled_table_zero]
  · exact ⟨(s0.toAnimator_base.set_text_length T).start, rfl,
      Scroll.set_text_length_shifted s0 T (by omega)⟩

theorem scrolled_table_getElem? (T b i : Nat) (hi : i < T) :
    (scrolled_table T b)[i]? =
      some { index := i, position := (i : Int) - ((min i b : Nat) : Int) } := by
  simp [scrolled_table, List.getElem?_range hi]

theorem scrolled_table_position_nonneg (T b : Nat) :
    ∀ e ∈ scrolled_table T b, 0 ≤ e.position := by
  intro e he
  simp only [scrolled_table, List.mem_map, List.mem_range] at he
  obtain ⟨i, _, rfl⟩ := he
  simp only
  omega

/-- C22: in every state of a `Scroll` reached from `set_text_length T` (with
`T ≤ INT_MAX`, so that the `int` positions do not overflow) by ticks, no
table entry has a negative display position, and element `j` (counted from 0) of
the visible range returned by a tick has display position exactly `j`: the
leftmost visible glyph is at column 0 and the visible glyphs are contiguous. -/
theorem Scroll_positions (s0 : Scroll_base) (T n : Nat) (hint : T ≤ INT_MAX) :
    (∀ e ∈ (Scroll_base.ticks n (Scroll.set_text_length s0 T)).data_, 0 ≤ e.position) ∧
    (1 ≤ n → ∀ (j : Nat) (e : Index_and_position),
      ((Scroll_base.range_of_tick n (Scroll.set_text_length s0 T)).entries
        (Scroll_base.ticks n (Scroll.set_text_length s0 T)).data_)[j]? = some e →
      e.position = (j : Int)) := by
  have hsize : T < SIZE_MOD := by
    simp only [SIZE_MOD, INT_MAX] at *
    omega
  obtain ⟨B, hB, hfresh⟩ := Scroll.set_text_length_fresh s0 T
  obtain ⟨b, h, hb, _, heq⟩ := Scroll_base.ticks_shifted B (by rw [hB]; exact hsize) n
  rw [hfresh]
  refine ⟨?_, ?_⟩
  · rw [heq]
    exact scrolled_table_position_nonneg _ _
  · intro hn j e he
    rw [Scroll_base.range_of_tick_state n hn, heq] at he
    simp only [Scroll_base.shifted, IP_range.entries, scrolled_table_length, hB] at he
    rw [List.take_of_length_le (by simp [scrolled_table_length]), List.getElem?_drop] at he
    by_cases hj : b + j < T
    · rw [scrolled_table_getElem? T b (b + j) hj] at he
      cases he
      simp only
      omega
    · rw [List.getElem?_eq_none (by simp [scrolled_table_length]; omega)] at he
      cases he

/-- A `Scroll` with text length 3 after 22 ticks: the window has shifted twice and
its only visible entry is at position 0. -/
theorem Scroll_positions_witness :
    3 ≤ INT_MAX ∧ 1 ≤ 22 ∧
    ((Scroll_base.range_of_tick 22 (Scroll.set_text_length idle_Scroll 3)).entries
      (Scroll_base.ticks 22 (Scroll.set_text_length idle_Scroll 3)).data_) =
      [{ index := 2, position := 0 }] ∧
    ({ index := 2, position := 0 } : Index_and_position).position = ((0 : Nat) : Int) :=
  ⟨by decide, by decide, by decide,
   (Scroll_positions idle_Scroll 3 22 (by decide)).2 (by decide) 0
     { index := 2, position := 0 } (by decide)⟩

end ox.animator
